import Mathlib

/-!
Verification development for the Google-Code-to-Github issue migrator
(`migrateissues.py`).  The program text is shallowly embedded: strings are
`List Char`, the two tracker clients are modelled as pure paginated data
(the source feed is part of the environment, the destination repository is
explicit state), and every function of the script that the claims touch is
translated into an executable Lean definition.
-/

set_option autoImplicit false

namespace Migrate

/-- Program text is modelled as a list of characters. -/
abbrev Str := List Char

/-- Convert a Lean string literal to the `Str` representation. -/
def str (s : String) : Str := s.toList

/-! ## Generic string helpers (Python `str.replace`, `str.lower`, …) -/

/-- Structural worker for `replaceAll`; every step consumes at least one
character, so `fuel = s.length` always suffices (`replaceAllFuel_congr`). -/
def replaceAllFuel (pat rep : Str) : Nat → Str → Str
  | 0, s => s
  | _ + 1, [] => []
  | fuel + 1, c :: cs =>
    if pat.isPrefixOf (c :: cs) then
      rep ++ replaceAllFuel pat rep fuel (cs.drop (pat.length - 1))
    else
      c :: replaceAllFuel pat rep fuel cs

/-- Python `s.replace(pat, rep)`: scan left to right, replace every
non-overlapping occurrence of `pat` by `rep`; replaced text is not re-scanned. -/
def replaceAll (pat rep s : Str) : Str := replaceAllFuel pat rep s.length s

theorem replaceAllFuel_congr (pat rep : Str) :
    ∀ f1 f2 s, s.length ≤ f1 → s.length ≤ f2 →
      replaceAllFuel pat rep f1 s = replaceAllFuel pat rep f2 s := by
  intro f1
  induction f1 with
  | zero =>
    intro f2 s h1 _
    have hs : s = [] := List.length_eq_zero.mp (Nat.le_zero.mp h1)
    subst hs
    cases f2 <;> rfl
  | succ f ih =>
    intro f2 s h1 h2
    match s, f2 with
    | [], 0 => rfl
    | [], f2 + 1 => rfl
    | c :: cs, f2 + 1 =>
      simp only [replaceAllFuel]
      have hlen : cs.length ≤ f := by simpa using h1
      have hlen2 : cs.length ≤ f2 := by simpa using h2
      by_cases hp : pat.isPrefixOf (c :: cs)
      · rw [if_pos hp, if_pos hp]
        have hd : (cs.drop (pat.length - 1)).length ≤ cs.length := by
          simp [List.length_drop]
        rw [ih f2 _ (le_trans hd hlen) (le_trans hd hlen2)]
      · rw [if_neg hp, if_neg hp, ih f2 _ hlen hlen2]

/-- Unfolding rule: `replaceAll` on `[]`. -/
@[simp] theorem replaceAll_nil (pat rep : Str) : replaceAll pat rep [] = [] := rfl

/-- Unfolding rule: `replaceAll` on a cons. -/
theorem replaceAll_cons (pat rep : Str) (c : Char) (cs : Str) :
    replaceAll pat rep (c :: cs) =
      if pat.isPrefixOf (c :: cs) then
        rep ++ replaceAll pat rep (cs.drop (pat.length - 1))
      else
        c :: replaceAll pat rep cs := by
  show replaceAllFuel pat rep (cs.length + 1) (c :: cs) = _
  simp only [replaceAllFuel]
  by_cases hp : pat.isPrefixOf (c :: cs)
  · rw [if_pos hp, if_pos hp]
    show _ ++ replaceAllFuel pat rep cs.length _ = _ ++ replaceAll pat rep _
    rw [replaceAllFuel_congr pat rep cs.length (cs.drop (pat.length - 1)).length
      (cs.drop (pat.length - 1)) (by simp [List.length_drop]) le_rfl]
    rfl
  · rw [if_neg hp, if_neg hp]
    rfl

/-- Python `str.lower` (ASCII is all the script ever feeds it). -/
def strLower (s : Str) : Str := s.map Char.toLower

/-- Little-endian base-10 digits, structurally recursive on a fuel bound
(`fuel = n` always suffices, see `natDigitsFuel_eq_digits`). -/
def natDigitsFuel : Nat → Nat → List Nat
  | 0, _ => []
  | _ + 1, 0 => []
  | fuel + 1, n + 1 => (n + 1) % 10 :: natDigitsFuel fuel ((n + 1) / 10)

/-- Little-endian base-10 digits of `n`. -/
def natDigits (n : Nat) : List Nat := natDigitsFuel n n

theorem natDigitsFuel_eq_digits :
    ∀ fuel n, n ≤ fuel → natDigitsFuel fuel n = Nat.digits 10 n := by
  intro fuel
  induction fuel with
  | zero =>
    intro n hn
    have : n = 0 := Nat.le_zero.mp hn
    subst this
    simp [natDigitsFuel, Nat.digits_zero]
  | succ f ih =>
    intro n hn
    match n with
    | 0 => simp [natDigitsFuel, Nat.digits_zero]
    | n + 1 =>
      have hdiv : (n + 1) / 10 ≤ f := by
        have := Nat.div_lt_self (Nat.succ_pos n) (by norm_num : 1 < 10)
        omega
      show (n + 1) % 10 :: natDigitsFuel f ((n + 1) / 10) = _
      rw [ih _ hdiv, Nat.digits_def' (by norm_num : 1 < 10) (Nat.succ_pos n)]

theorem natDigits_eq_digits (n : Nat) : natDigits n = Nat.digits 10 n :=
  natDigitsFuel_eq_digits n n le_rfl

/-- Decimal rendering of a natural number (Python `"%d" % n` for `n ≥ 0`). -/
def natStr (n : Nat) : Str :=
  if n = 0 then ['0']
  else ((natDigits n).reverse.map (fun d => Char.ofNat (48 + d)))

/-- Parse a digit string back to a number (Python `int(...)` on the regex group). -/
def parseDigits (s : Str) : Nat :=
  s.foldl (fun a c => 10 * a + (c.toNat - 48)) 0

/-- Substring test (used to state properties about produced bodies). -/
def isSubstr (pat : Str) : Str → Bool
  | [] => pat.isEmpty
  | s@(_ :: t) => pat.isPrefixOf s || isSubstr pat t

/-! ## Constants of the script -/

/-- `GOOGLE_MAX_RESULTS = 500`. -/
def GOOGLE_MAX_RESULTS : Nat := 500

/-- `GITHUB_SPARE_REQUESTS = 50`. -/
def GITHUB_SPARE_REQUESTS : Nat := 50

/-- `GOOGLE_STATUS_VALUES_FILTERED` (the uncommented entries). -/
def GOOGLE_STATUS_VALUES_FILTERED : List Str := [str "Invalid", str "Duplicate"]

/-- `GOOGLE_STATUS_MAPPING` (the uncommented entries), as a lookup. -/
def GOOGLE_STATUS_MAPPING (s : Str) : Option Str :=
  if s = str "Invalid" then some (str "invalid")
  else if s = str "Duplicate" then some (str "duplicate")
  else if s = str "WontFix" then some (str "wontfix")
  else none

/-- `GOOGLE_LABEL_MAPPING` (the uncommented entries), as a lookup. -/
def GOOGLE_LABEL_MAPPING (s : Str) : Option Str :=
  if s = str "Type-Defect" then some (str "bug")
  else if s = str "Type-Enhancement" then some (str "enhancement")
  else none

/-- The zero-width-space HTML entity `&#8203;` used by the script. -/
def zeroWidth : Str := str "&#8203;"

/-- `GOOGLE_ISSUE_TEMPLATE % link`: the back-reference footer for a permalink. -/
def googleIssueTemplate (link : Str) : Str :=
  str "_Original issue: " ++ link ++ ['_']

/-- `GOOGLE_URL % (project, id)`: the source permalink for an issue id. -/
def googleUrl (proj : Str) (id : Nat) : Str :=
  str "http://code.google.com/p/" ++ proj ++ str "/issues/detail?id=" ++ natStr id

/-! ## Identity codec: `GOOGLE_ID_RE` search

`GOOGLE_ID_RE % project` is the regex
`_Original issue: http://code.google.com/p/<project>/issues/detail\?id=(\d+)_`.
The two `.` of `code.google.com` are unescaped in `GOOGLE_URL_RE` and hence
wildcards; `\?` is a literal `?`; `\d+` is greedy, and since it is followed
by the non-digit `_` greedy matching never backtracks.  The embedding below
implements exactly this pattern (it is faithful for project names free of
regex metacharacters, which `projSafe` captures). -/

/-- One regex atom of the fixed pattern: a literal character or `.` wildcard. -/
inductive PatC where
  | lit (c : Char)
  | any
  deriving DecidableEq

/-- Literal pattern text. -/
def lits (s : String) : List PatC := s.toList.map PatC.lit

/-- Match a pattern prefix against a string, returning the remainder. -/
def patDrop : List PatC → Str → Option Str
  | [], s => some s
  | _ :: _, [] => none
  | p :: ps, c :: cs =>
    match p with
    | .any => patDrop ps cs
    | .lit l => if l = c then patDrop ps cs else none

/-- The fixed part of `GOOGLE_ID_RE % proj` before the digit group. -/
def idPattern (proj : Str) : List PatC :=
  lits "_Original issue: http://code" ++ [PatC.any] ++ lits "google" ++ [PatC.any] ++
    lits "com/p/" ++ proj.map PatC.lit ++ lits "/issues/detail?id="

/-- Try to match `GOOGLE_ID_RE % proj` at the start of `s`, returning the
captured issue id. -/
def matchIdAt (proj : Str) (s : Str) : Option Nat :=
  match patDrop (idPattern proj) s with
  | none => none
  | some r =>
    if r.takeWhile Char.isDigit = [] then none
    else
      match r.drop (r.takeWhile Char.isDigit).length with
      | '_' :: _ => some (parseDigits (r.takeWhile Char.isDigit))
      | _ => none

/-- `re.search` of `GOOGLE_ID_RE % proj`: leftmost match wins. -/
def searchId (proj : Str) : Str → Option Nat
  | [] => none
  | s@(_ :: t) =>
    match matchIdAt proj s with
    | some n => some n
    | none => searchId proj t

/-- Project names for which splicing into the regex is metacharacter-free. -/
def projSafe (proj : Str) : Bool :=
  proj.all fun c => c.isAlphanum || c = '-' || c = '_'

/-! ## Data model -/

/-- A Google Code source issue as the gdata feed presents it to the script.
`gid` is the numeric part of `issue.id.text` (via `parse_gcode_id`), `link`
is `issue.link[1].href`, `owner` is the truthiness of `issue.owner`.
An absent status element or absent status text both read back as `none`. -/
structure GIssue where
  gid : Nat
  title : Str
  link : Str
  author : Str
  content : Str
  date : Str
  status : Option Str
  state : Str
  labels : List Str
  owner : Bool
  deriving DecidableEq

/-- A Google Code source comment.  `content` is the comment's free text
(`comment.content.text`, with empty text read back as `[]`); `mergedInto`
is the optional structured `mergedIntoUpdate` value, already parsed as a
number as `int(comment.updates.mergedIntoUpdate.text)` does. -/
structure GComment where
  cid : Nat
  author : Str
  date : Str
  content : Str
  mergedInto : Option Nat
  deriving DecidableEq

/-- A destination (Github) issue: the mutable resource the script creates
and edits.  `number` is assigned by the tracker, `comments` is the ordered
list of comment bodies. -/
structure GhIssue where
  number : Nat
  title : Str
  body : Str
  state : Str
  labels : List Str
  comments : List Str
  assignee : Option Str
  deriving DecidableEq

/-- The destination repository: all issues in creation order; a freshly
created issue receives number `issues.length + 1`. -/
structure Repo where
  issues : List GhIssue
  deriving DecidableEq

/-- The command-line options of the script (`optparse` flags). -/
structure Opts where
  assignOwner : Bool
  baseId : Nat
  dryRun : Bool
  omitPriority : Bool
  synchronizeIds : Bool
  deriving DecidableEq

/-- The run environment: project name, options, the remaining Github
request quota as `gh.rate_limiting[0]` reports it, the authenticated user
login, and the read-only source feeds (issues, and comments per issue id). -/
structure Env where
  project : Str
  opts : Opts
  rate : Nat
  userLogin : Str
  issues : List GIssue
  comments : Nat → List GComment

/-! ## Destination repository primitives -/

/-- Look an issue up by number (dereferencing a PyGithub issue handle). -/
def repoGet (repo : Repo) (n : Nat) : Option GhIssue :=
  repo.issues.find? (fun gh => gh.number = n)

/-- Mutate the issue with number `n` in place (a PyGithub `edit`/append). -/
def repoModify (repo : Repo) (n : Nat) (f : GhIssue → GhIssue) : Repo :=
  ⟨repo.issues.map (fun gh => if gh.number = n then f gh else gh)⟩

/-- `github_repo.create_issue(title, body, labels)`: appends a fresh open
issue and returns its number. -/
def freshIssue (repo : Repo) (title body : Str) (labels : List Str) : GhIssue :=
  { number := repo.issues.length + 1, title := title, body := body,
    state := str "open", labels := labels, comments := [], assignee := none }

def createIssue (repo : Repo) (title body : Str) (labels : List Str) :
    Repo × Nat :=
  (⟨repo.issues ++ [freshIssue repo title body labels]⟩, repo.issues.length + 1)

/-! ## Content transformer -/

/-- `parse_gcode_date`: renders the fixed machine timestamp format in a
human-readable form via `datetime`.  Modelled as the identity on the
timestamp text: the spec records that the exact rendering is a presentation
detail, and no claim inspects the rendered bytes — only that identical
source dates render identically, which any function provides. -/
def parse_gcode_date (s : Str) : Str := s

/-- The `%`-escaping applied to titles (`title.replace('%', '&#37;')`). -/
def escTitle (t : Str) : Str := replaceAll ['%'] (str "&#37;") t

/-- The `#`-heading escape applied to issue and comment content:
`content.replace('\n#', '\n#&#8203;').replace('\n #', '\n #&#8203;')`. -/
def cleanContent (s : Str) : Str :=
  replaceAll (str "\n #") (str "\n #" ++ zeroWidth)
    (replaceAll (str "\n#") (str "\n#" ++ zeroWidth) s)

/-- The status string `issue.status.text if issue.status else ""`. -/
def statusText (i : GIssue) : Str := i.status.getD []

/-- Whether the issue's status lies in `GOOGLE_STATUS_VALUES_FILTERED`
(the `issue.status and issue.status.text in ...` test). -/
def statusFiltered (i : GIssue) : Bool :=
  match i.status with
  | some s => decide (s ∈ GOOGLE_STATUS_VALUES_FILTERED)
  | none => false

/-- The label list built by `add_issue_to_github`: the `imported` seed, the
mapped source labels (optionally dropping `Priority-` ones), and the
status-derived label. -/
def mkLabels (env : Env) (i : GIssue) : List Str :=
  let srcLabels := i.labels.filterMap fun l =>
    if (str "Priority-").isPrefixOf l && env.opts.omitPriority then none
    else some ((GOOGLE_LABEL_MAPPING l).getD l)
  let stat := statusText i
  let statLabel := (GOOGLE_STATUS_MAPPING stat).getD (strLower stat)
  str "imported" :: srcLabels ++ [statLabel]

/-- The destination body built by `add_issue_to_github`:
`"%s\n\n%s\n\n\n%s" % (header, content, footer)`. -/
def mkIssueBody (i : GIssue) : Str :=
  let header := str "_Original author: " ++ i.author ++ str " (" ++
    parse_gcode_date i.date ++ str ")_"
  let footer := googleIssueTemplate i.link
  header ++ str "\n\n" ++ cleanContent i.content ++ str "\n\n\n" ++ footer

/-! ## Comment transformer -/

/-- `re.match(r"Issue (\d+) has been merged into this issue.", text)`:
a *prefix* match of `Issue `, one or more digits, the literal
` has been merged into this issue`, and one arbitrary character *other
than a newline* (the unescaped `.`; the call passes no `re.DOTALL`, so
`.` does not match `\n`).  Greedy `\d+` never backtracks here because
the next pattern character is a non-digit. -/
def mergedMsgRe (s : Str) : Bool :=
  if (str "Issue ").isPrefixOf s then
    if (s.drop (str "Issue ").length).takeWhile Char.isDigit = [] then false
    else
      if (str " has been merged into this issue").isPrefixOf
          ((s.drop (str "Issue ").length).dropWhile Char.isDigit) then
        match (((s.drop (str "Issue ").length).dropWhile Char.isDigit).drop
            (str " has been merged into this issue").length) with
        | [] => false
        | c :: _ => c ≠ '\n'
      else false
  else false

/-- `should_migrate_comment`. -/
def should_migrate_comment (c : GComment) : Bool :=
  if c.content ≠ [] then
    !mergedMsgRe c.content
  else
    c.mergedInto.isSome

/-- `format_comment`. -/
def format_comment (opts : Opts) (c : GComment) : Str :=
  let content := cleanContent c.content
  match c.mergedInto with
  | some m =>
    str "_This issue is a duplicate of #" ++ natStr (opts.baseId + m) ++ ['_']
  | none =>
    str "_From " ++ c.author ++ str " on " ++ parse_gcode_date c.date ++
      str "_\n" ++ content

/-- The backward-compatibility normalisation
`re.sub(r'^(.+):_\n', r'\1_\n', body)`: without `re.MULTILINE` the `^`
anchors at the string start and `.` excludes newlines, so the unique
candidate match rewrites a first line of the shape `<x>:_` (with `x`
non-empty) into `<x>_`. -/
def normalizeExisting (s : Str) : Str :=
  let l := s.takeWhile (fun c => c ≠ '\n')
  match s.drop l.length with
  | '\n' :: rest =>
    if 3 ≤ l.length && l.reverse.take 2 = ['_', ':'] then
      l.dropLast.dropLast ++ '_' :: '\n' :: rest
    else s
  | _ => s

/-! ## Migration engine -/

/-- The comment filter of `add_comments_to_issue`:
`should_migrate_comment(comment) and format_comment(comment) not in
existing_comments` (Python `and` evaluates left to right). -/
def commentWanted (opts : Opts) (existing : List Str) (c : GComment) : Bool :=
  should_migrate_comment c && decide (format_comment opts c ∉ existing)

/-- The paging loop of `add_comments_to_issue`, returning the list of
comment bodies it posts, in posting order.  The loop body fetches the page
at `si`, filters it, *breaks when the filtered list is empty*, and
otherwise posts the survivors and advances by `GOOGLE_MAX_RESULTS`.
`fuel` only bounds the recursion; each productive iteration needs a
non-empty page, so `(env.comments gid).length + 1` iterations always
suffice and the `fuel = 0` case is never reached from `addComments`. -/
def addCommentsLoop (env : Env) (gid : Nat) (existing : List Str) :
    Nat → Nat → List Str → List Str
  | 0, _, acc => acc
  | fuel + 1, si, acc =>
    if (((env.comments gid).drop (si - 1)).take GOOGLE_MAX_RESULTS).filter
        (commentWanted env.opts existing) = [] then acc
    else addCommentsLoop env gid existing fuel (si + GOOGLE_MAX_RESULTS)
      (acc ++ ((((env.comments gid).drop (si - 1)).take GOOGLE_MAX_RESULTS).filter
        (commentWanted env.opts existing)).map (format_comment env.opts))

/-- `add_comments_to_issue`'s computation of the bodies it will post:
the destination issue's current comment bodies are fetched once and
normalised for backward compatibility, then the source pages are walked
from start index 1. -/
def add_comments_to_issue (env : Env) (gid : Nat) (existingBodies : List Str) :
    List Str :=
  addCommentsLoop env gid (existingBodies.map normalizeExisting)
    ((env.comments gid).length + 1) 1 []

/-- Result of `add_issue_to_github`: either the quota guard fired (the
raised exception aborts the whole run), or the issue was processed —
`created` counts `create_issue` calls (0 on a dry run) and `ghNum` is the
new issue's number (`None` on a dry run, like the script's `github_issue`). -/
inductive AddRes where
  | quotaAbort
  | made (repo : Repo) (created : Nat) (ghNum : Option Nat)
  deriving DecidableEq

/-- `add_issue_to_github`. -/
def add_issue_to_github (env : Env) (i : GIssue) (repo : Repo) : AddRes :=
  if env.rate < GITHUB_SPARE_REQUESTS then .quotaAbort
  else if env.opts.dryRun then .made repo 0 none
  else
    .made
      (if i.owner && env.opts.assignOwner then
        repoModify
          (createIssue repo (escTitle i.title) (mkIssueBody i) (mkLabels env i)).1
          (createIssue repo (escTitle i.title) (mkIssueBody i) (mkLabels env i)).2
          (fun gh => { gh with assignee := some env.userLogin })
      else (createIssue repo (escTitle i.title) (mkIssueBody i) (mkLabels env i)).1)
      1
      (some (createIssue repo (escTitle i.title) (mkIssueBody i) (mkLabels env i)).2)

/-- Engine state threaded through `process_gcode_issues`: the repository,
the `existing_issues` dictionary (source id ↦ destination issue number),
and counters for destination issue creations and comment creations. -/
structure St where
  repo : Repo
  emap : List (Nat × Nat)
  icount : Nat
  ccount : Nat
  deriving DecidableEq

/-- Python `dict` lookup on the `existing_issues` map. -/
def dictGet (m : List (Nat × Nat)) (k : Nat) : Option Nat :=
  (m.find? (fun p => p.1 = k)).map (fun p => p.2)

/-- Python `dict` assignment `m[k] = v`. -/
def dictInsert (m : List (Nat × Nat)) (k v : Nat) : List (Nat × Nat) :=
  if m.any (fun p => p.1 = k) then
    m.map (fun p => if p.1 = k then (k, v) else p)
  else m ++ [(k, v)]

/-- The body of a synchronize-ids placeholder issue for missing id `g`. -/
def placeholderBody (env : Env) (g : Nat) : Str :=
  str "_Skipping this issue number to maintain synchronization with Google Code issue IDs._" ++
    str "\n\n" ++ googleIssueTemplate (googleUrl env.project g)

/-- The placeholder issue as it exists after `create_issue` + `edit(state
= "closed")`, with number `num`. -/
def mkPlaceholder (env : Env) (g : Nat) (num : Nat) : GhIssue :=
  { number := num, title := str "Google Code skipped issue " ++ natStr g,
    body := placeholderBody env g, state := str "closed",
    labels := [str "imported"], comments := [], assignee := none }

/-- The `while previous_gid + 1 < gid` placeholder loop under
synchronize-ids.  Note what the source does *not* do here: no dry-run
guard and no quota check.  `fuel = gid` always suffices since `prev`
strictly increases towards `gid`. -/
def placeholderCreate (env : Env) (g : Nat) (st : St) : St :=
  { st with
    repo := repoModify
      (createIssue st.repo (str "Google Code skipped issue " ++ natStr g)
        (placeholderBody env g) [str "imported"]).1
      (createIssue st.repo (str "Google Code skipped issue " ++ natStr g)
        (placeholderBody env g) [str "imported"]).2
      (fun gh => { gh with state := str "closed" }),
    emap := dictInsert st.emap g
      (createIssue st.repo (str "Google Code skipped issue " ++ natStr g)
        (placeholderBody env g) [str "imported"]).2,
    icount := st.icount + 1 }

/-- The `while previous_gid + 1 < gid` placeholder loop under
synchronize-ids.  Note what the source does *not* do here: no dry-run
guard and no quota check.  `fuel = gid` always suffices since `prev`
strictly increases towards `gid`. -/
def placeholderLoop (env : Env) (gid : Nat) : Nat → Nat → St → St × Nat
  | 0, prev, st => (st, prev)
  | fuel + 1, prev, st =>
    if prev + 1 < gid then
      placeholderLoop env gid fuel (prev + 1)
        (if (dictGet st.emap (prev + 1)).isNone then placeholderCreate env (prev + 1) st
         else st)
    else (st, prev)

/-- Comment sync for one destination issue: fetch its comments, run
`add_comments_to_issue`, post the new bodies (skipped on a dry run). -/
def syncCommentsWith (env : Env) (gid num : Nat) (st : St) (gh : GhIssue) : St :=
  if env.opts.dryRun then st
  else
    { st with
      repo := repoModify st.repo num
        (fun g => { g with
          comments := g.comments ++ add_comments_to_issue env gid gh.comments }),
      ccount := st.ccount + (add_comments_to_issue env gid gh.comments).length }

def syncComments (env : Env) (gid num : Nat) (st : St) : St :=
  match repoGet st.repo num with
  | none => st
  | some gh => syncCommentsWith env gid num st gh

/-- State sync for one destination issue:
`if github_issue.state != issue.state.text: github_issue.edit(state =
issue.state.text)` — note the missing dry-run guard, faithfully kept. -/
def syncStateWith (i : GIssue) (num : Nat) (st : St) (gh : GhIssue) : St :=
  if gh.state ≠ i.state then
    { st with repo := repoModify st.repo num (fun g => { g with state := i.state }) }
  else st

def syncState (i : GIssue) (num : Nat) (st : St) : St :=
  match repoGet st.repo num with
  | none => st
  | some gh => syncStateWith i num st gh

/-- Result of processing: `ok` carries the state and the final
`previous_gid`; `abort` is the uncaught quota exception, carrying the
destination state at the moment the run dies. -/
inductive Res where
  | ok (st : St) (prev : Nat)
  | abort (st : St)
  deriving DecidableEq

/-- The tail of the per-issue loop body after the synchronize-ids
placeholder block: look the id up, then either reuse, skip, or create. -/
def processIssueCore (env : Env) (i : GIssue) (st1 : St) : Res :=
  match dictGet st1.emap i.gid with
  | some num => .ok (syncState i num (syncComments env i.gid num st1)) i.gid
  | none =>
    if statusFiltered i then .ok st1 i.gid
    else
      match add_issue_to_github env i st1.repo with
      | .quotaAbort => .abort st1
      | .made repo' ic ghNum =>
        match ghNum with
        | none => .ok { st1 with repo := repo', icount := st1.icount + ic } i.gid
        | some num =>
          .ok (syncState i num (syncComments env i.gid num
            { st1 with repo := repo', icount := st1.icount + ic })) i.gid

/-- The per-issue body of the `for issue in issues_feed.entry` loop. -/
def processIssue (env : Env) (i : GIssue) (st : St) (prev : Nat) : Res :=
  processIssueCore env i
    (if env.opts.synchronizeIds then (placeholderLoop env i.gid i.gid prev st).1
     else st)

/-- Process one fetched page of source issues in order. -/
def processIssueList (env : Env) : List GIssue → St → Nat → Res
  | [], st, prev => .ok st prev
  | i :: rest, st, prev =>
    match processIssue env i st prev with
    | .ok st' p' => processIssueList env rest st' p'
    | .abort st' => .abort st'

/-- The paging loop of `process_gcode_issues`: pages of
`GOOGLE_MAX_RESULTS` issues from start index 1, stopping at the first page
with zero entries.  `fuel = env.issues.length + 1` always suffices. -/
def processPages (env : Env) : Nat → Nat → St → Nat → Res
  | 0, _, st, prev => .ok st prev
  | fuel + 1, si, st, prev =>
    if (env.issues.drop (si - 1)).take GOOGLE_MAX_RESULTS = [] then .ok st prev
    else
      match processIssueList env ((env.issues.drop (si - 1)).take GOOGLE_MAX_RESULTS)
          st prev with
      | .ok st' p' => processPages env fuel (si + GOOGLE_MAX_RESULTS) st' p'
      | .abort st' => .abort st'

/-- `process_gcode_issues(existing_issues)`. -/
def process_gcode_issues (env : Env) (emap : List (Nat × Nat)) (repo : Repo) : Res :=
  processPages env (env.issues.length + 1) 1 ⟨repo, emap, 0, 0⟩ 0

/-- The `for issue in existing_issues` reconciliation loop: extract the
embedded source id with `GOOGLE_ID_RE`, and on a match record
`issue_map[google_id] = issue` (here: the issue's number). -/
def buildDict (env : Env) : List GhIssue → List (Nat × Nat) → List (Nat × Nat)
  | [], m => m
  | gh :: rest, m =>
    match searchId env.project gh.body with
    | some g => buildDict env rest (dictInsert m g gh.number)
    | none => buildDict env rest m

/-- `get_existing_github_issues`: scan all destination issues (open then
closed), extract the embedded source id with `GOOGLE_ID_RE`, and build the
source-id ↦ destination-issue map (here: the issue's number). -/
def get_existing_github_issues (env : Env) (repo : Repo) : List (Nat × Nat) :=
  buildDict env
    (repo.issues.filter (fun gh => gh.state = str "open") ++
      repo.issues.filter (fun gh => gh.state = str "closed"))
    []

/-- A full migration run (`get_existing_github_issues` then
`process_gcode_issues`, as `__main__` wires them without `--assign-ids`). -/
def migrate (env : Env) (repo : Repo) : Res :=
  process_gcode_issues env (get_existing_github_issues env repo) repo

/-! ## Backlink rewriter (`map_google_id_to_github`)

The pass compiles, with `re.IGNORECASE`,
`issue ?#?(\d+(?! \(G))|[^\n] #(\d+(?! \(G))|(?<!_Original issue: )<GOOGLE_URL_RE % proj>(?! \(G)`
and substitutes every match through `replace_issue_number`.  The embedding
below implements this pattern: alternatives are tried in order at each
position, leftmost match wins, and `re.sub` resumes after the match.  The
only backtracking the pattern can need is in ` ?`, `#?` (tried greedily)
and giving back one final digit of `\d+` when the `(?! \(G)` lookahead
fails (giving back more never helps, as the next character is then a digit). -/

/-- Case-insensitive literal match, returning the remainder. -/
def dropLitCI : Str → Str → Option Str
  | [], s => some s
  | _ :: _, [] => none
  | l :: ls, c :: cs => if l.toLower = c.toLower then dropLitCI ls cs else none

/-- Case-insensitive prefix test. -/
def isPrefixOfCI (p s : Str) : Bool := (dropLitCI p s).isSome

/-- `\d+(?! \(G)` with greedy matching and the single useful backtrack:
returns the consumed digit group and the remainder. -/
def digitsNoLookG (r : Str) : Option (Str × Str) :=
  let ds := r.takeWhile Char.isDigit
  if ds = [] then none
  else if !isPrefixOfCI (str " (G") (r.drop ds.length) then
    some (ds, r.drop ds.length)
  else if 2 ≤ ds.length then some (ds.dropLast, r.drop (ds.length - 1))
  else none

/-- Alternative 1, `issue ?#?(\d+(?! \(G))`: the optional space and hash
are tried greedily, in regex backtracking order. -/
def tryAlt1 (rest : Str) : Option (Str × Str) :=
  match dropLitCI (str "issue") rest with
  | none => none
  | some r1 =>
    let cands1 : List Str :=
      match r1 with
      | ' ' :: t => [t, r1]
      | _ => [r1]
    let cands2 : List Str := cands1.flatMap fun r2 =>
      match r2 with
      | '#' :: t => [t, r2]
      | _ => [r2]
    cands2.findSome? digitsNoLookG

/-- Alternative 2, `[^\n] #(\d+(?! \(G))`. -/
def tryAlt2 (rest : Str) : Option (Str × Str) :=
  match rest with
  | c :: ' ' :: '#' :: r3 => if c = '\n' then none else digitsNoLookG r3
  | _ => none

/-- The `GOOGLE_URL_RE % proj` part of alternative 3 (dots of
`code.google.com` are wildcards, matching is case-insensitive). -/
def patDropCI : List PatC → Str → Option Str
  | [], s => some s
  | _ :: _, [] => none
  | p :: ps, c :: cs =>
    match p with
    | .any => patDropCI ps cs
    | .lit l => if l.toLower = c.toLower then patDropCI ps cs else none

/-- The url pattern of alternative 3. -/
def urlPattern (proj : Str) : List PatC :=
  lits "http://code" ++ [PatC.any] ++ lits "google" ++ [PatC.any] ++
    lits "com/p/" ++ proj.map PatC.lit ++ lits "/issues/detail?id="

/-- Alternative 3,
`(?<!_Original issue: )<GOOGLE_URL_RE % proj>(?! \(G)`; `revBefore` is the
text before the match position, reversed, for the lookbehind. -/
def tryAlt3 (proj : Str) (revBefore rest : Str) : Option (Str × Str) :=
  if isPrefixOfCI (str "_Original issue: ").reverse revBefore then none
  else
    match patDropCI (urlPattern proj) rest with
    | none => none
    | some r => digitsNoLookG r

/-- Which alternative matched, with its digit group (the regex groups 1-3). -/
inductive BMatch where
  | m1 (ds : Str)
  | m2 (ds : Str)
  | m3 (ds : Str)
  deriving DecidableEq

/-- One attempt of the full alternation at a position. -/
def tryMatchAt (proj : Str) (revBefore rest : Str) : Option (BMatch × Str) :=
  match tryAlt1 rest with
  | some (ds, rem) => some (.m1 ds, rem)
  | none =>
    match tryAlt2 rest with
    | some (ds, rem) => some (.m2 ds, rem)
    | none =>
      match tryAlt3 proj revBefore rest with
      | some (ds, rem) => some (.m3 ds, rem)
      | none => none

/-- `re.sub("\d", note, match_string)`: every digit is replaced by `note`. -/
def subDigits (note : Str) : Str → Str
  | [] => []
  | c :: cs => if c.isDigit then note ++ subDigits note cs else c :: subDigits note cs

/-- The `"&#8203;%d (Github: #%d)" % (google_id, github_id)` note. -/
def githubNote (g ghid : Nat) : Str :=
  zeroWidth ++ natStr g ++ str " (Github: #" ++ natStr ghid ++ str ")"

/-- `replace_issue_number(match)` over the id map. -/
def replace_issue_number (map : List (Nat × Nat)) (m : BMatch) (matched : Str) : Str :=
  match m with
  | .m1 ds =>
    match dictGet map (parseDigits ds) with
    | some ghid => subDigits (githubNote (parseDigits ds) ghid) matched
    | none => matched
  | .m2 ds =>
    match dictGet map (parseDigits ds) with
    | some ghid => subDigits (githubNote (parseDigits ds) ghid) matched
    | none => matched
  | .m3 ds =>
    match dictGet map (parseDigits ds) with
    | some ghid => matched ++ str " (Github: #" ++ natStr ghid ++ str ")"
    | none => matched

/-- The scanning loop of `issue_re.sub(replace_issue_number, text)`:
leftmost match, substitution, resume after the match.  Every match consumes
at least one character, so `fuel = text.length` suffices. -/
def backlinkSub (proj : Str) (map : List (Nat × Nat)) :
    Nat → Str → Str → Str
  | 0, _, rest => rest
  | fuel + 1, revBefore, rest =>
    match rest with
    | [] => []
    | c :: cs =>
      match tryMatchAt proj revBefore rest with
      | some (m, rem) =>
        let matched := rest.take (rest.length - rem.length)
        replace_issue_number map m matched ++
          backlinkSub proj map fuel (matched.reverse ++ revBefore) rem
      | none => c :: backlinkSub proj map fuel (c :: revBefore) cs

/-- The body rewrite `issue_re.sub(replace_issue_number, body)` that
`map_google_id_to_github` applies to each migrated issue and comment body. -/
def backlinkRewrite (proj : Str) (map : List (Nat × Nat)) (body : Str) : Str :=
  backlinkSub proj map body.length [] body

/-! ## Generic list lemmas -/

theorem takeWhile_all_append {α : Type} (p : α → Bool) (a : List α) (c : α)
    (cs : List α) (ha : ∀ x ∈ a, p x = true) (hc : p c = false) :
    (a ++ c :: cs).takeWhile p = a ∧ (a ++ c :: cs).dropWhile p = c :: cs := by
  induction a with
  | nil => simp [List.takeWhile, List.dropWhile, hc]
  | cons x xs ih =>
    have hx : p x = true := ha x (by simp)
    have ih' := ih (fun y hy => ha y (by simp [hy]))
    simp [List.takeWhile, List.dropWhile, hx, ih'.1, ih'.2]

theorem map_eq_self_of_forall {α : Type} (f : α → α) (l : List α)
    (h : ∀ x ∈ l, f x = x) : l.map f = l := by
  induction l with
  | nil => rfl
  | cons x xs ih =>
    simp only [List.map_cons, h x (by simp), ih (fun y hy => h y (by simp [hy]))]

/-! ## Expected shapes of engine results -/

/-- The comment bodies posted to a freshly created destination issue
(whose own comment list is empty at sync time). -/
def freshComments (env : Env) (gid : Nat) : List Str :=
  add_comments_to_issue env gid []

/-- The destination issue the engine leaves behind for a migrated source
issue `i`, with destination number `num`: created by
`add_issue_to_github`, then comment-synced, then state-synced. -/
def expIssue (env : Env) (i : GIssue) (num : Nat) : GhIssue :=
  { number := num, title := escTitle i.title, body := mkIssueBody i,
    state := i.state, labels := mkLabels env i,
    comments := freshComments env i.gid,
    assignee := if i.owner && env.opts.assignOwner then some env.userLogin
      else none }

/-- The destination issues a run over source list `L` creates against an
initially conflict-free destination, numbering from `n`. -/
def expIssues (env : Env) : List GIssue → Nat → List GhIssue
  | [], _ => []
  | i :: rest, n =>
    if statusFiltered i then expIssues env rest n
    else expIssue env i n :: expIssues env rest (n + 1)

theorem expIssue_number (env : Env) (i : GIssue) (num : Nat) :
    (expIssue env i num).number = num := rfl

theorem expIssues_cons (env : Env) (i : GIssue) (rest : List GIssue) (n : Nat) :
    expIssues env (i :: rest) n =
      if statusFiltered i then expIssues env rest n
      else expIssue env i n :: expIssues env rest (n + 1) := rfl

/-- The destination issue numbers, in repository order. -/
def repoNums (repo : Repo) : List Nat := repo.issues.map (fun gh => gh.number)

/-! ## Repository and dictionary lemmas -/

theorem number_le_of_nums (repo : Repo)
    (hnums : repoNums repo = List.range' 1 repo.issues.length) :
    ∀ y ∈ repo.issues, y.number ≤ repo.issues.length := by
  intro y hy
  have hmem : y.number ∈ repoNums repo := List.mem_map_of_mem _ hy
  rw [hnums] at hmem
  have := List.mem_range'_1.mp hmem
  omega

theorem repoGet_append_last (l : List GhIssue) (x : GhIssue)
    (h : ∀ y ∈ l, y.number ≠ x.number) :
    repoGet ⟨l ++ [x]⟩ x.number = some x := by
  unfold repoGet
  induction l with
  | nil => simp [List.find?]
  | cons y ys ih =>
    show List.find? _ (y :: (ys ++ [x])) = some x
    rw [List.find?_cons]
    have hy : (decide (y.number = x.number)) = false := by
      simp [h y (by simp)]
    rw [hy]
    exact ih (fun z hz => h z (by simp [hz]))

theorem repoModify_append_last (l : List GhIssue) (x : GhIssue)
    (f : GhIssue → GhIssue) (h : ∀ y ∈ l, y.number ≠ x.number) :
    repoModify ⟨l ++ [x]⟩ x.number f = ⟨l ++ [f x]⟩ := by
  unfold repoModify
  congr 1
  rw [List.map_append]
  congr 1
  · exact map_eq_self_of_forall _ _ (fun y hy => by simp [h y hy])
  · simp

theorem repoGet_nodup (l : List GhIssue) (gh : GhIssue)
    (hn : (l.map (fun g => g.number)).Nodup) (hm : gh ∈ l) :
    repoGet ⟨l⟩ gh.number = some gh := by
  unfold repoGet
  induction l with
  | nil => exact absurd hm (by simp)
  | cons y ys ih =>
    rw [List.find?_cons]
    by_cases hy : y.number = gh.number
    · rcases List.mem_cons.mp hm with rfl | hm2
      · simp
      · exfalso
        have : gh.number ∈ ys.map (fun g => g.number) := List.mem_map_of_mem _ hm2
        rw [← hy] at this
        exact (List.nodup_cons.mp hn).1 this
    · rw [show (decide (y.number = gh.number)) = false by simp [hy]]
      rcases List.mem_cons.mp hm with rfl | hm2
      · exact absurd rfl hy
      · exact ih (List.nodup_cons.mp hn).2 hm2

theorem repoModify_ident (repo : Repo) (n : Nat) (f : GhIssue → GhIssue)
    (h : ∀ gh ∈ repo.issues, f gh = gh) : repoModify repo n f = repo := by
  unfold repoModify
  have : repo.issues.map (fun gh => if gh.number = n then f gh else gh) =
      repo.issues :=
    map_eq_self_of_forall _ _ (fun gh hgh => by
      by_cases hn : gh.number = n <;> simp [hn, h gh hgh])
  rw [this]

theorem find?_overwrite_ne (ps : List (Nat × Nat)) (k v k' : Nat) (h : k' ≠ k) :
    (ps.map (fun p => if p.1 = k then (k, v) else p)).find? (fun p => p.1 = k') =
      ps.find? (fun p => p.1 = k') := by
  induction ps with
  | nil => rfl
  | cons p ps ih =>
    rw [List.map_cons, List.find?_cons, List.find?_cons]
    by_cases hp : p.1 = k
    · rw [if_pos hp]
      rw [show (decide ((k, v).1 = k')) = false by
        simp only [decide_eq_false_iff_not]
        exact fun hc => h hc.symm]
      rw [show (decide (p.1 = k')) = false by
        simp only [decide_eq_false_iff_not]
        rw [hp]
        exact fun hc => h hc.symm]
      exact ih
    · rw [if_neg hp]
      cases hd : (decide (p.1 = k'))
      · exact ih
      · rfl

theorem find?_overwrite_self (ps : List (Nat × Nat)) (k v : Nat)
    (hany : ps.any (fun p => p.1 = k) = true) :
    (ps.map (fun p => if p.1 = k then (k, v) else p)).find? (fun p => p.1 = k) =
      some (k, v) := by
  induction ps with
  | nil => simp at hany
  | cons p ps ih =>
    rw [List.map_cons, List.find?_cons]
    by_cases hp : p.1 = k
    · rw [if_pos hp]
      rw [show (decide ((k, v).1 = k)) = true by simp]
    · rw [if_neg hp]
      rw [show (decide (p.1 = k)) = false by simp [hp]]
      apply ih
      rcases List.any_eq_true.mp hany with ⟨q, hq, hqk⟩
      rcases List.mem_cons.mp hq with rfl | hq2
      · exact absurd (by simpa using hqk) hp
      · exact List.any_eq_true.mpr ⟨q, hq2, hqk⟩

theorem find?_append_single_self (ps : List (Nat × Nat)) (k v : Nat)
    (hnone : ps.any (fun p => p.1 = k) = false) :
    (ps ++ [(k, v)]).find? (fun p => p.1 = k) = some (k, v) := by
  induction ps with
  | nil =>
    show List.find? _ [(k, v)] = some (k, v)
    rw [List.find?_cons]
    rw [show (decide ((k, v).1 = k)) = true by simp]
  | cons p ps ih =>
    show List.find? _ (p :: (ps ++ [(k, v)])) = some (k, v)
    rw [List.find?_cons]
    have hp : p.1 ≠ k := by
      intro hc
      rw [List.any_cons] at hnone
      simp [hc] at hnone
    rw [show (decide (p.1 = k)) = false by simp [hp]]
    apply ih
    rw [List.any_cons] at hnone
    exact (Bool.or_eq_false_iff.mp hnone).2

theorem find?_append_single_ne (ps : List (Nat × Nat)) (k v k' : Nat)
    (h : k' ≠ k) :
    (ps ++ [(k, v)]).find? (fun p => p.1 = k') = ps.find? (fun p => p.1 = k') := by
  induction ps with
  | nil =>
    show List.find? _ [(k, v)] = none
    rw [List.find?_cons]
    rw [show (decide ((k, v).1 = k')) = false by
      simp only [decide_eq_false_iff_not]
      exact fun hc => h hc.symm]
    rfl
  | cons p ps ih =>
    show List.find? _ (p :: (ps ++ [(k, v)])) = _
    rw [List.find?_cons, List.find?_cons]
    cases hd : (decide (p.1 = k'))
    · exact ih
    · rfl

theorem dictGet_insert_self (m : List (Nat × Nat)) (k v : Nat) :
    dictGet (dictInsert m k v) k = some v := by
  unfold dictInsert dictGet
  by_cases hany : m.any (fun p => p.1 = k)
  · rw [if_pos hany, find?_overwrite_self m k v hany]
    rfl
  · rw [if_neg hany, find?_append_single_self m k v (Bool.eq_false_iff.mpr hany)]
    rfl

theorem dictGet_insert_ne (m : List (Nat × Nat)) (k v k' : Nat) (h : k' ≠ k) :
    dictGet (dictInsert m k v) k' = dictGet m k' := by
  unfold dictInsert dictGet
  by_cases hany : m.any (fun p => p.1 = k)
  · rw [if_pos hany, find?_overwrite_ne m k v k' h]
  · rw [if_neg hany, find?_append_single_ne m k v k' h]

/-! ## Reconciliation-index lemmas -/

theorem buildDict_not_in (env : Env) : ∀ (L : List GhIssue) (m : List (Nat × Nat))
    (g : Nat), g ∉ L.filterMap (fun gh => searchId env.project gh.body) →
    dictGet (buildDict env L m) g = dictGet m g := by
  intro L
  induction L with
  | nil => intro m g _; rfl
  | cons gh L ih =>
    intro m g hg
    unfold buildDict
    cases hk : searchId env.project gh.body with
    | none =>
      apply ih
      intro hc
      exact hg (by rw [List.filterMap_cons, hk]; exact hc)
    | some k =>
      have hgk : g ≠ k := by
        intro hc
        subst hc
        exact hg (by rw [List.filterMap_cons, hk]; exact List.mem_cons_self _ _)
      rw [ih (dictInsert m k gh.number) g (fun hc =>
        hg (by rw [List.filterMap_cons, hk]; exact List.mem_cons_of_mem _ hc))]
      exact dictGet_insert_ne m k gh.number g hgk

theorem buildDict_found (env : Env) : ∀ (L : List GhIssue) (m : List (Nat × Nat))
    (gh : GhIssue) (g : Nat), gh ∈ L → searchId env.project gh.body = some g →
    (L.filterMap (fun x => searchId env.project x.body)).Nodup →
    dictGet (buildDict env L m) g = some gh.number := by
  intro L
  induction L with
  | nil => intro m gh g hm; exact absurd hm (by simp)
  | cons x L ih =>
    intro m gh g hm hkey hnodup
    rcases List.mem_cons.mp hm with rfl | hm2
    · unfold buildDict
      rw [hkey]
      have hnotin : g ∉ L.filterMap (fun x => searchId env.project x.body) := by
        have := hnodup
        rw [List.filterMap_cons, hkey] at this
        exact (List.nodup_cons.mp this).1
      rw [buildDict_not_in env L _ g hnotin]
      exact dictGet_insert_self m g gh.number
    · unfold buildDict
      have hkeymem : g ∈ L.filterMap (fun x => searchId env.project x.body) :=
        List.mem_filterMap.mpr ⟨gh, hm2, hkey⟩
      cases hk : searchId env.project x.body with
      | none =>
        apply ih _ gh g hm2 hkey
        rw [List.filterMap_cons, hk] at hnodup
        exact hnodup
      | some k =>
        rw [List.filterMap_cons, hk] at hnodup
        exact ih _ gh g hm2 hkey (List.nodup_cons.mp hnodup).2

/-! ## Placeholder-loop lemmas -/

theorem placeholderLoop_nogap (env : Env) (gid : Nat) (fuel prev : Nat)
    (st : St) (h : ¬ prev + 1 < gid) :
    placeholderLoop env gid fuel prev st = (st, prev) := by
  cases fuel with
  | zero => rfl
  | succ f =>
    unfold placeholderLoop
    rw [if_neg h]

theorem placeholderCreate_eq (env : Env) (g : Nat) (st : St)
    (hnums : repoNums st.repo = List.range' 1 st.repo.issues.length) :
    placeholderCreate env g st =
      { st with
        repo := ⟨st.repo.issues ++
          [mkPlaceholder env g (st.repo.issues.length + 1)]⟩,
        emap := dictInsert st.emap g (st.repo.issues.length + 1),
        icount := st.icount + 1 } := by
  have hne : ∀ y ∈ st.repo.issues, y.number ≠ st.repo.issues.length + 1 := by
    intro y hy hc
    have := number_le_of_nums st.repo hnums y hy
    omega
  unfold placeholderCreate
  congr 1
  exact repoModify_append_last st.repo.issues
    (freshIssue st.repo (str "Google Code skipped issue " ++ natStr g)
      (placeholderBody env g) [str "imported"]) _ hne

theorem placeholderLoop_step (env : Env) (gid : Nat) (fuel prev : Nat)
    (st : St) (h : prev + 1 < gid)
    (hmap : dictGet st.emap (prev + 1) = none)
    (hnums : repoNums st.repo = List.range' 1 st.repo.issues.length) :
    placeholderLoop env gid (fuel + 1) prev st =
      placeholderLoop env gid fuel (prev + 1)
        { st with
          repo := ⟨st.repo.issues ++
            [mkPlaceholder env (prev + 1) (st.repo.issues.length + 1)]⟩,
          emap := dictInsert st.emap (prev + 1) (st.repo.issues.length + 1),
          icount := st.icount + 1 } := by
  show (if prev + 1 < gid then
      placeholderLoop env gid fuel (prev + 1)
        (if (dictGet st.emap (prev + 1)).isNone then placeholderCreate env (prev + 1) st
         else st)
    else (st, prev)) = _
  rw [if_pos h, hmap]
  show placeholderLoop env gid fuel (prev + 1) (placeholderCreate env (prev + 1) st) = _
  rw [placeholderCreate_eq env (prev + 1) st hnums]

/-! ## Per-issue step lemmas -/

/-- The destination issue as it exists right after `add_issue_to_github`
(before comment and state sync). -/
def createdIssue (env : Env) (i : GIssue) (num : Nat) : GhIssue :=
  { number := num, title := escTitle i.title, body := mkIssueBody i,
    state := str "open", labels := mkLabels env i, comments := [],
    assignee := if i.owner && env.opts.assignOwner then some env.userLogin
      else none }

theorem add_issue_to_github_create (env : Env) (i : GIssue) (repo : Repo)
    (hrate : ¬ env.rate < GITHUB_SPARE_REQUESTS)
    (hdry : env.opts.dryRun = false)
    (hnums : repoNums repo = List.range' 1 repo.issues.length) :
    add_issue_to_github env i repo =
      .made ⟨repo.issues ++ [createdIssue env i (repo.issues.length + 1)]⟩ 1
        (some (repo.issues.length + 1)) := by
  have hne : ∀ y ∈ repo.issues, y.number ≠ repo.issues.length + 1 := by
    intro y hy hc
    have := number_le_of_nums repo hnums y hy
    omega
  unfold add_issue_to_github
  rw [if_neg hrate, hdry]
  rw [if_neg Bool.false_ne_true]
  by_cases hown : (i.owner && env.opts.assignOwner) = true
  · rw [if_pos hown]
    have hmod : repoModify
        ⟨repo.issues ++ [freshIssue repo (escTitle i.title) (mkIssueBody i) (mkLabels env i)]⟩
        (repo.issues.length + 1)
        (fun gh => { gh with assignee := some env.userLogin }) =
        ⟨repo.issues ++ [{ freshIssue repo (escTitle i.title) (mkIssueBody i) (mkLabels env i) with
          assignee := some env.userLogin }]⟩ :=
      repoModify_append_last repo.issues _ _ hne
    show AddRes.made
      (repoModify
        ⟨repo.issues ++ [freshIssue repo (escTitle i.title) (mkIssueBody i) (mkLabels env i)]⟩
        (repo.issues.length + 1)
        (fun gh => { gh with assignee := some env.userLogin })) 1
      (some (repo.issues.length + 1)) = _
    rw [hmod]
    unfold createdIssue
    rw [hown]
    rfl
  · rw [if_neg hown]
    unfold createdIssue
    rw [Bool.not_eq_true] at hown
    rw [hown]
    rfl

theorem syncComments_created (env : Env) (i : GIssue) (st : St)
    (hdry : env.opts.dryRun = false)
    (hnums : repoNums st.repo = List.range' 1 st.repo.issues.length) :
    syncComments env i.gid (st.repo.issues.length + 1)
      { st with
        repo := ⟨st.repo.issues ++ [createdIssue env i (st.repo.issues.length + 1)]⟩,
        icount := st.icount + 1 } =
      { st with
        repo := ⟨st.repo.issues ++
          [{ createdIssue env i (st.repo.issues.length + 1) with
             comments := freshComments env i.gid }]⟩,
        icount := st.icount + 1,
        ccount := st.ccount + (freshComments env i.gid).length } := by
  have hne : ∀ y ∈ st.repo.issues, y.number ≠ st.repo.issues.length + 1 := by
    intro y hy hc
    have := number_le_of_nums st.repo hnums y hy
    omega
  have hget : repoGet ⟨st.repo.issues ++ [createdIssue env i (st.repo.issues.length + 1)]⟩
      (st.repo.issues.length + 1) = some (createdIssue env i (st.repo.issues.length + 1)) :=
    repoGet_append_last st.repo.issues _ hne
  unfold syncComments
  rw [hget]
  show syncCommentsWith env i.gid (st.repo.issues.length + 1)
    { st with
      repo := ⟨st.repo.issues ++ [createdIssue env i (st.repo.issues.length + 1)]⟩,
      icount := st.icount + 1 }
    (createdIssue env i (st.repo.issues.length + 1)) = _
  unfold syncCommentsWith
  rw [hdry]
  rw [if_neg Bool.false_ne_true]
  have hmod : repoModify ⟨st.repo.issues ++ [createdIssue env i (st.repo.issues.length + 1)]⟩
      (st.repo.issues.length + 1)
      (fun g => { g with
        comments := g.comments ++ add_comments_to_issue env i.gid
          (createdIssue env i (st.repo.issues.length + 1)).comments }) =
      ⟨st.repo.issues ++ [{ createdIssue env i (st.repo.issues.length + 1) with
        comments := freshComments env i.gid }]⟩ :=
    repoModify_append_last st.repo.issues _ _ hne
  rw [hmod]
  rfl

theorem syncState_created (env : Env) (i : GIssue) (st : St)
    (hnums : repoNums st.repo = List.range' 1 st.repo.issues.length) :
    syncState i (st.repo.issues.length + 1)
      { st with
        repo := ⟨st.repo.issues ++
          [{ createdIssue env i (st.repo.issues.length + 1) with
             comments := freshComments env i.gid }]⟩,
        icount := st.icount + 1,
        ccount := st.ccount + (freshComments env i.gid).length } =
      { st with
        repo := ⟨st.repo.issues ++ [expIssue env i (st.repo.issues.length + 1)]⟩,
        icount := st.icount + 1,
        ccount := st.ccount + (freshComments env i.gid).length } := by
  have hne : ∀ y ∈ st.repo.issues, y.number ≠ st.repo.issues.length + 1 := by
    intro y hy hc
    have := number_le_of_nums st.repo hnums y hy
    omega
  have hget : repoGet ⟨st.repo.issues ++ [{ createdIssue env i (st.repo.issues.length + 1) with
      comments := freshComments env i.gid }]⟩ (st.repo.issues.length + 1) =
      some { createdIssue env i (st.repo.issues.length + 1) with
        comments := freshComments env i.gid } :=
    repoGet_append_last st.repo.issues _ hne
  unfold syncState
  rw [hget]
  show syncStateWith i (st.repo.issues.length + 1)
    { st with
      repo := ⟨st.repo.issues ++
        [{ createdIssue env i (st.repo.issues.length + 1) with
           comments := freshComments env i.gid }]⟩,
      icount := st.icount + 1,
      ccount := st.ccount + (freshComments env i.gid).length }
    { createdIssue env i (st.repo.issues.length + 1) with
      comments := freshComments env i.gid } = _
  unfold syncStateWith
  by_cases hst : i.state = str "open"
  · rw [if_neg (by
      show ¬ (str "open" ≠ i.state)
      rw [hst]
      exact fun hc => hc rfl)]
    congr 2
    unfold expIssue createdIssue
    rw [hst]
  · rw [if_pos (by
      show str "open" ≠ i.state
      exact fun hc => hst hc.symm)]
    have hmod : repoModify ⟨st.repo.issues ++ [{ createdIssue env i (st.repo.issues.length + 1) with
        comments := freshComments env i.gid }]⟩ (st.repo.issues.length + 1)
        (fun g => { g with state := i.state }) =
        ⟨st.repo.issues ++ [expIssue env i (st.repo.issues.length + 1)]⟩ :=
      repoModify_append_last st.repo.issues _ _ hne
    rw [hmod]

/-- Processing a source issue that is not in the reconciliation index and
not status-filtered, on a live (non-dry) run with spare quota: the engine
appends exactly the expected destination issue, bumps the creation counter
by one and the comment counter by the number of fresh comments. -/
theorem processIssueCore_create (env : Env) (i : GIssue) (st : St)
    (hmap : dictGet st.emap i.gid = none)
    (hfil : statusFiltered i = false)
    (hrate : ¬ env.rate < GITHUB_SPARE_REQUESTS)
    (hdry : env.opts.dryRun = false)
    (hnums : repoNums st.repo = List.range' 1 st.repo.issues.length) :
    processIssueCore env i st =
      .ok { st with
        repo := ⟨st.repo.issues ++ [expIssue env i (st.repo.issues.length + 1)]⟩,
        icount := st.icount + 1,
        ccount := st.ccount + (freshComments env i.gid).length } i.gid := by
  unfold processIssueCore
  rw [hmap, hfil]
  rw [if_neg Bool.false_ne_true]
  rw [add_issue_to_github_create env i st.repo hrate hdry hnums]
  show Res.ok (syncState i (st.repo.issues.length + 1)
    (syncComments env i.gid (st.repo.issues.length + 1)
      { st with
        repo := ⟨st.repo.issues ++ [createdIssue env i (st.repo.issues.length + 1)]⟩,
        icount := st.icount + 1 })) i.gid = _
  rw [syncComments_created env i st hdry hnums, syncState_created env i st hnums]

/-- Processing a source issue already in the reconciliation index whose
destination copy needs no comment top-up and already has the right state:
a complete no-op. -/
theorem processIssueCore_exists_noop (env : Env) (i : GIssue) (st : St)
    (num : Nat) (gh : GhIssue)
    (hmap : dictGet st.emap i.gid = some num)
    (hget : repoGet st.repo num = some gh)
    (hcomments : add_comments_to_issue env i.gid gh.comments = [])
    (hstate : gh.state = i.state)
    (hdry : env.opts.dryRun = false) :
    processIssueCore env i st = .ok st i.gid := by
  unfold processIssueCore
  rw [hmap]
  show Res.ok (syncState i num (syncComments env i.gid num st)) i.gid = _
  have hsc : syncComments env i.gid num st = st := by
    unfold syncComments
    rw [hget]
    show syncCommentsWith env i.gid num st gh = st
    unfold syncCommentsWith
    rw [hdry]
    rw [if_neg Bool.false_ne_true]
    rw [hcomments]
    have hmod : repoModify st.repo num (fun g => { g with comments := g.comments ++ [] }) =
        st.repo :=
      repoModify_ident st.repo num _ (fun g _ => by rw [List.append_nil])
    rw [hmod]
    show ({ st with repo := st.repo, ccount := st.ccount + 0 } : St) = st
    rw [Nat.add_zero]
  rw [hsc]
  have hss : syncState i num st = st := by
    unfold syncState
    rw [hget]
    show syncStateWith i num st gh = st
    unfold syncStateWith
    rw [if_neg (by
      show ¬ (gh.state ≠ i.state)
      rw [hstate]
      exact fun hc => hc rfl)]
  rw [hss]

/-- Processing a source issue that triggers creation but hits the quota
guard: the run aborts with the destination untouched. -/
theorem processIssueCore_quota (env : Env) (i : GIssue) (st : St)
    (hmap : dictGet st.emap i.gid = none)
    (hfil : statusFiltered i = false)
    (hrate : env.rate < GITHUB_SPARE_REQUESTS) :
    processIssueCore env i st = .abort st := by
  unfold processIssueCore
  rw [hmap, hfil]
  rw [if_neg Bool.false_ne_true]
  unfold add_issue_to_github
  rw [if_pos hrate]

/-- Processing a status-filtered source issue not in the index: skipped. -/
theorem processIssueCore_filtered (env : Env) (i : GIssue) (st : St)
    (hmap : dictGet st.emap i.gid = none)
    (hfil : statusFiltered i = true) :
    processIssueCore env i st = .ok st i.gid := by
  unfold processIssueCore
  rw [hmap, hfil]
  rw [if_pos rfl]

/-- With synchronize-ids off, the per-issue step is just the core step. -/
theorem processIssue_nosync (env : Env) (i : GIssue) (st : St) (prev : Nat)
    (hsync : env.opts.synchronizeIds = false) :
    processIssue env i st prev = processIssueCore env i st := by
  unfold processIssue
  rw [hsync]
  rw [if_neg Bool.false_ne_true]

/-! ## Page-loop lemmas -/

theorem processIssueList_append (env : Env) (a b : List GIssue) :
    ∀ (st : St) (prev : Nat),
    processIssueList env (a ++ b) st prev =
      match processIssueList env a st prev with
      | .ok st' p' => processIssueList env b st' p'
      | .abort st' => .abort st' := by
  induction a with
  | nil => intro st prev; rfl
  | cons i a ih =>
    intro st prev
    have hrhs : processIssueList env (i :: a) st prev =
        match processIssue env i st prev with
        | .ok st' p' => processIssueList env a st' p'
        | .abort st' => .abort st' := rfl
    rw [hrhs]
    show (match processIssue env i st prev with
      | .ok st' p' => processIssueList env (a ++ b) st' p'
      | .abort st' => .abort st') = _
    cases processIssue env i st prev with
    | ok st' p' => exact ih st' p'
    | abort st' => rfl

theorem processPages_eq_list (env : Env) : ∀ (fuel si : Nat) (st : St)
    (prev : Nat), 1 ≤ si →
    env.issues.length + 1 ≤ si + GOOGLE_MAX_RESULTS * fuel →
    processPages env fuel si st prev =
      processIssueList env (env.issues.drop (si - 1)) st prev := by
  have h500 : GOOGLE_MAX_RESULTS = 500 := rfl
  intro fuel
  induction fuel with
  | zero =>
    intro si st prev h1 h2
    have hdrop : env.issues.drop (si - 1) = [] := by
      apply List.drop_eq_nil_of_le
      omega
    rw [hdrop]
    rfl
  | succ f ih =>
    intro si st prev h1 h2
    show (if (env.issues.drop (si - 1)).take GOOGLE_MAX_RESULTS = [] then Res.ok st prev
      else
        match processIssueList env ((env.issues.drop (si - 1)).take GOOGLE_MAX_RESULTS)
            st prev with
        | .ok st' p' => processPages env f (si + GOOGLE_MAX_RESULTS) st' p'
        | .abort st' => .abort st') = _
    by_cases hpage : (env.issues.drop (si - 1)).take GOOGLE_MAX_RESULTS = []
    · rw [if_pos hpage]
      have hnil : env.issues.drop (si - 1) = [] := by
        rcases List.take_eq_nil_iff.mp hpage with h | h
        · exact absurd (h500 ▸ h) (by decide)
        · exact h
      rw [hnil]
      rfl
    · rw [if_neg hpage]
      have hsplit : env.issues.drop (si - 1) =
          (env.issues.drop (si - 1)).take GOOGLE_MAX_RESULTS ++
          (env.issues.drop (si - 1)).drop GOOGLE_MAX_RESULTS :=
        (List.take_append_drop _ _).symm
      conv_rhs => rw [hsplit]
      rw [processIssueList_append]
      have hdd : (env.issues.drop (si - 1)).drop GOOGLE_MAX_RESULTS =
          env.issues.drop (si + GOOGLE_MAX_RESULTS - 1) := by
        rw [List.drop_drop]
        congr 1
        omega
      rw [hdd]
      cases processIssueList env ((env.issues.drop (si - 1)).take GOOGLE_MAX_RESULTS)
          st prev with
      | ok st' p' =>
        exact ih (si + GOOGLE_MAX_RESULTS) st' p' (by omega) (by rw [h500] at h2 ⊢; omega)
      | abort st' => rfl

/-! ## First run against an empty destination -/

theorem run1_list (env : Env)
    (hdry : env.opts.dryRun = false) (hsync : env.opts.synchronizeIds = false)
    (hrate : ¬ env.rate < GITHUB_SPARE_REQUESTS) :
    ∀ (rest : List GIssue) (l0 : List GhIssue) (c cc prev : Nat),
      repoNums ⟨l0⟩ = List.range' 1 l0.length →
      ∃ c' cc' p',
        processIssueList env rest ⟨⟨l0⟩, [], c, cc⟩ prev =
          .ok ⟨⟨l0 ++ expIssues env rest (l0.length + 1)⟩, [], c', cc'⟩ p' := by
  intro rest
  induction rest with
  | nil =>
    intro l0 c cc prev _
    refine ⟨c, cc, prev, ?_⟩
    show Res.ok ⟨⟨l0⟩, [], c, cc⟩ prev = _
    rw [show expIssues env [] (l0.length + 1) = [] from rfl, List.append_nil]
  | cons i rest ih =>
    intro l0 c cc prev hnums
    by_cases hfil : statusFiltered i = true
    · obtain ⟨c', cc', p', hrun⟩ := ih l0 c cc i.gid hnums
      refine ⟨c', cc', p', ?_⟩
      have h1 : processIssueList env (i :: rest) ⟨⟨l0⟩, [], c, cc⟩ prev =
          processIssueList env rest ⟨⟨l0⟩, [], c, cc⟩ i.gid := by
        show (match processIssue env i ⟨⟨l0⟩, [], c, cc⟩ prev with
          | .ok st' p' => processIssueList env rest st' p'
          | .abort st' => .abort st') = _
        rw [processIssue_nosync env i _ prev hsync,
          processIssueCore_filtered env i ⟨⟨l0⟩, [], c, cc⟩ rfl hfil]
      rw [h1, hrun]
      rw [expIssues_cons, if_pos hfil]
    · have hfil2 : statusFiltered i = false := by simpa using hfil
      have hnums2 : repoNums ⟨l0 ++ [expIssue env i (l0.length + 1)]⟩ =
          List.range' 1 (l0 ++ [expIssue env i (l0.length + 1)]).length := by
        unfold repoNums at hnums ⊢
        rw [List.map_append, hnums]
        simp [List.range'_concat, Nat.add_comm, expIssue_number]
      obtain ⟨c', cc', p', hrun⟩ := ih (l0 ++ [expIssue env i (l0.length + 1)])
        (c + 1) (cc + (freshComments env i.gid).length) i.gid hnums2
      refine ⟨c', cc', p', ?_⟩
      have h1 : processIssueList env (i :: rest) ⟨⟨l0⟩, [], c, cc⟩ prev =
          processIssueList env rest
            ⟨⟨l0 ++ [expIssue env i (l0.length + 1)]⟩, [], c + 1,
              cc + (freshComments env i.gid).length⟩ i.gid := by
        show (match processIssue env i ⟨⟨l0⟩, [], c, cc⟩ prev with
          | .ok st' p' => processIssueList env rest st' p'
          | .abort st' => .abort st') = _
        rw [processIssue_nosync env i _ prev hsync,
          processIssueCore_create env i ⟨⟨l0⟩, [], c, cc⟩ rfl hfil2 hrate hdry hnums]
      rw [h1, hrun]
      rw [expIssues_cons, if_neg (by simp [hfil2])]
      rw [show (l0 ++ [expIssue env i (l0.length + 1)]).length = l0.length + 1 by simp]
      rw [List.append_assoc]
      rfl

/-! ## Comment de-duplication on a second run -/

theorem addCommentsLoop_succ (env : Env) (gid : Nat) (ex : List Str)
    (fuel si : Nat) (acc : List Str) :
    addCommentsLoop env gid ex (fuel + 1) si acc =
      if (((env.comments gid).drop (si - 1)).take GOOGLE_MAX_RESULTS).filter
          (commentWanted env.opts ex) = [] then acc
      else addCommentsLoop env gid ex fuel (si + GOOGLE_MAX_RESULTS)
        (acc ++ ((((env.comments gid).drop (si - 1)).take GOOGLE_MAX_RESULTS).filter
          (commentWanted env.opts ex)).map (format_comment env.opts)) := rfl

theorem addCommentsLoop_acc (env : Env) (gid : Nat) (ex : List Str) :
    ∀ (fuel si : Nat) (acc : List Str),
      addCommentsLoop env gid ex fuel si acc =
        acc ++ addCommentsLoop env gid ex fuel si [] := by
  intro fuel
  induction fuel with
  | zero => intro si acc; simp [addCommentsLoop]
  | succ f ih =>
    intro si acc
    rw [addCommentsLoop_succ, addCommentsLoop_succ]
    by_cases hnew : (((env.comments gid).drop (si - 1)).take GOOGLE_MAX_RESULTS).filter
        (commentWanted env.opts ex) = []
    · rw [if_pos hnew, if_pos hnew, List.append_nil]
    · rw [if_neg hnew, if_neg hnew]
      rw [ih (si + GOOGLE_MAX_RESULTS)
        (acc ++ (List.map (format_comment env.opts) _))]
      rw [ih (si + GOOGLE_MAX_RESULTS) ([] ++ (List.map (format_comment env.opts) _))]
      simp [List.append_assoc]

theorem addCommentsLoop_mem (env : Env) (gid : Nat) (ex : List Str) :
    ∀ (fuel si : Nat) (acc : List Str) (x : Str),
      x ∈ addCommentsLoop env gid ex fuel si acc →
      x ∈ acc ∨ ∃ c ∈ env.comments gid, x = format_comment env.opts c := by
  intro fuel
  induction fuel with
  | zero => intro si acc x hx; exact Or.inl hx
  | succ f ih =>
    intro si acc x hx
    rw [addCommentsLoop_succ] at hx
    by_cases hnew : (((env.comments gid).drop (si - 1)).take GOOGLE_MAX_RESULTS).filter
        (commentWanted env.opts ex) = []
    · rw [if_pos hnew] at hx
      exact Or.inl hx
    · rw [if_neg hnew] at hx
      rcases ih (si + GOOGLE_MAX_RESULTS) _ x hx with hacc | hfmt
      · rcases List.mem_append.mp hacc with h1 | h2
        · exact Or.inl h1
        · right
          rcases List.mem_map.mp h2 with ⟨c, hc, rfl⟩
          refine ⟨c, ?_, rfl⟩
          have hc2 := List.mem_of_mem_filter hc
          have hc3 := List.mem_of_mem_take hc2
          exact List.mem_of_mem_drop hc3
      · exact Or.inr hfmt

theorem freshComments_mem (env : Env) (gid : Nat) (x : Str)
    (hx : x ∈ freshComments env gid) :
    ∃ c ∈ env.comments gid, x = format_comment env.opts c := by
  unfold freshComments add_comments_to_issue at hx
  rcases addCommentsLoop_mem env gid _ _ _ _ x hx with h | h
  · exact absurd h (by simp)
  · exact h

theorem commentWanted_nil (opts : Opts) (c : GComment) :
    commentWanted opts [] c = should_migrate_comment c := by
  unfold commentWanted
  simp

/-- On a destination issue already carrying exactly the fresh comments of
a first run, `add_comments_to_issue` posts nothing: every first-page
comment is either unmigratable or already present verbatim, so the loop's
filtered page is empty and it stops at once. -/
theorem add_comments_fresh_noop (env : Env) (gid : Nat)
    (hnorm : ∀ c ∈ env.comments gid,
      normalizeExisting (format_comment env.opts c) = format_comment env.opts c) :
    add_comments_to_issue env gid (freshComments env gid) = [] := by
  have hmapnorm : (freshComments env gid).map normalizeExisting =
      freshComments env gid := by
    apply map_eq_self_of_forall
    intro x hx
    rcases freshComments_mem env gid x hx with ⟨c, hc, rfl⟩
    exact hnorm c hc
  unfold add_comments_to_issue
  rw [hmapnorm]
  have hempty : (((env.comments gid).drop (1 - 1)).take GOOGLE_MAX_RESULTS).filter
      (commentWanted env.opts (freshComments env gid)) = [] := by
    rw [List.filter_eq_nil_iff]
    intro c hc
    rw [show (1 : Nat) - 1 = 0 from rfl, List.drop_zero] at hc
    by_cases hsm : should_migrate_comment c = true
    · have hin : format_comment env.opts c ∈ freshComments env gid := by
        unfold freshComments add_comments_to_issue
        rw [show (([] : List Str).map normalizeExisting) = [] from rfl]
        cases hlen : (env.comments gid).length with
        | zero =>
          exfalso
          have hnil : env.comments gid = [] := List.length_eq_zero.mp hlen
          rw [hnil] at hc
          simp at hc
        | succ n =>
          rw [addCommentsLoop_succ]
          rw [show (1 : Nat) - 1 = 0 from rfl, List.drop_zero]
          have hcfil : c ∈ ((env.comments gid).take GOOGLE_MAX_RESULTS).filter
              (commentWanted env.opts []) := by
            apply List.mem_filter.mpr
            refine ⟨hc, ?_⟩
            rw [commentWanted_nil]
            exact hsm
          rw [if_neg (by
            intro hcontra
            rw [hcontra] at hcfil
            simp at hcfil)]
          rw [addCommentsLoop_acc]
          apply List.mem_append.mpr
          left
          simp only [List.nil_append]
          exact List.mem_map_of_mem _ hcfil
      simp [commentWanted, hsm, hin]
    · simp [commentWanted, hsm]
  rw [addCommentsLoop_succ, if_pos hempty]

/-! ## The reconciliation index over a first run's output -/

theorem expIssues_nums (env : Env) : ∀ (L : List GIssue) (n : Nat),
    (expIssues env L n).map (fun gh => gh.number) =
      List.range' n (expIssues env L n).length := by
  intro L
  induction L with
  | nil => intro n; rfl
  | cons i L ih =>
    intro n
    rw [expIssues_cons]
    by_cases hfil : statusFiltered i = true
    · rw [if_pos hfil]
      exact ih n
    · rw [if_neg hfil]
      rw [List.map_cons, expIssue_number, ih (n + 1)]
      rw [List.length_cons, List.range'_succ]

theorem expIssues_keys (env : Env) : ∀ (L : List GIssue) (n : Nat),
    (∀ i ∈ L, statusFiltered i = false →
      searchId env.project (mkIssueBody i) = some i.gid) →
    (expIssues env L n).filterMap (fun gh => searchId env.project gh.body) =
      (L.filter (fun i => !statusFiltered i)).map (fun i => i.gid) := by
  intro L
  induction L with
  | nil => intro n _; rfl
  | cons i L ih =>
    intro n hx
    have hxtail : ∀ j ∈ L, statusFiltered j = false →
        searchId env.project (mkIssueBody j) = some j.gid :=
      fun j hj => hx j (by simp [hj])
    rw [expIssues_cons]
    by_cases hfil : statusFiltered i = true
    · rw [if_pos hfil]
      rw [show (i :: L).filter (fun i => !statusFiltered i) =
        L.filter (fun i => !statusFiltered i) from by
          rw [List.filter_cons]
          simp [hfil]]
      exact ih n hxtail
    · rw [if_neg hfil]
      have hfil2 : statusFiltered i = false := by simpa using hfil
      rw [List.filterMap_cons]
      rw [show searchId env.project (expIssue env i n).body = some i.gid from
        hx i (by simp) hfil2]
      rw [show (i :: L).filter (fun i => !statusFiltered i) =
        i :: L.filter (fun i => !statusFiltered i) from by
          rw [List.filter_cons]
          simp [hfil2]]
      rw [List.map_cons, ih (n + 1) hxtail]

theorem expIssues_mem_of (env : Env) : ∀ (L : List GIssue) (n : Nat)
    (i : GIssue), i ∈ L → statusFiltered i = false →
    ∃ m, expIssue env i m ∈ expIssues env L n := by
  intro L
  induction L with
  | nil => intro n i hi; exact absurd hi (by simp)
  | cons j L ih =>
    intro n i hi hfil
    rw [expIssues_cons]
    rcases List.mem_cons.mp hi with rfl | hi2
    · rw [if_neg (by simp [hfil])]
      exact ⟨n, List.mem_cons_self _ _⟩
    · by_cases hjf : statusFiltered j = true
      · rw [if_pos hjf]
        exact ih n i hi2 hfil
      · rw [if_neg hjf]
        obtain ⟨m, hm⟩ := ih (n + 1) i hi2 hfil
        exact ⟨m, List.mem_cons_of_mem _ hm⟩

theorem expIssues_mem_inv (env : Env) : ∀ (L : List GIssue) (n : Nat)
    (gh : GhIssue), gh ∈ expIssues env L n →
    ∃ i ∈ L, statusFiltered i = false ∧ ∃ m, gh = expIssue env i m := by
  intro L
  induction L with
  | nil => intro n gh hgh; exact absurd hgh (by simp [expIssues])
  | cons j L ih =>
    intro n gh hgh
    rw [expIssues_cons] at hgh
    by_cases hjf : statusFiltered j = true
    · rw [if_pos hjf] at hgh
      obtain ⟨i, hi, hf, m, hm⟩ := ih n gh hgh
      exact ⟨i, by simp [hi], hf, m, hm⟩
    · rw [if_neg hjf] at hgh
      rcases List.mem_cons.mp hgh with rfl | hgh2
      · exact ⟨j, by simp, by simpa using hjf, n, rfl⟩
      · obtain ⟨i, hi, hf, m, hm⟩ := ih (n + 1) gh hgh2
        exact ⟨i, by simp [hi], hf, m, hm⟩

/-- The destination scan order of `get_existing_github_issues`: open
issues first, then closed ones. -/
def stateScan (l : List GhIssue) : List GhIssue :=
  l.filter (fun gh => gh.state = str "open") ++
    l.filter (fun gh => gh.state = str "closed")

theorem get_existing_eq_scan (env : Env) (l : List GhIssue) :
    get_existing_github_issues env ⟨l⟩ = buildDict env (stateScan l) [] := rfl

theorem stateScan_keys_subset (env : Env) (l : List GhIssue) (g : Nat)
    (hg : g ∈ (stateScan l).filterMap (fun gh => searchId env.project gh.body)) :
    g ∈ l.filterMap (fun gh => searchId env.project gh.body) := by
  unfold stateScan at hg
  rw [List.filterMap_append] at hg
  rcases List.mem_append.mp hg with h | h
  · exact (List.Sublist.filterMap _ (List.filter_sublist l)).subset h
  · exact (List.Sublist.filterMap _ (List.filter_sublist l)).subset h

theorem expIssues_key_gid (env : Env) (L : List GIssue) (n : Nat) (gh : GhIssue)
    (hx : ∀ i ∈ L, statusFiltered i = false →
      searchId env.project (mkIssueBody i) = some i.gid)
    (hgh : gh ∈ expIssues env L n) :
    ∃ i ∈ L, statusFiltered i = false ∧ gh.state = i.state ∧
      searchId env.project gh.body = some i.gid := by
  obtain ⟨i, hi, hfil, m, rfl⟩ := expIssues_mem_inv env L n gh hgh
  exact ⟨i, hi, hfil, rfl, hx i hi hfil⟩

theorem stateScan_keys_nodup (env : Env) (L : List GIssue) (n : Nat)
    (hnodup : (L.map (fun i => i.gid)).Nodup)
    (hx : ∀ i ∈ L, statusFiltered i = false →
      searchId env.project (mkIssueBody i) = some i.gid) :
    ((stateScan (expIssues env L n)).filterMap
      (fun gh => searchId env.project gh.body)).Nodup := by
  have hEnodup : ((expIssues env L n).filterMap
      (fun gh => searchId env.project gh.body)).Nodup := by
    rw [expIssues_keys env L n hx]
    exact hnodup.sublist (List.Sublist.map _ (List.filter_sublist L))
  unfold stateScan
  rw [List.filterMap_append, List.nodup_append]
  refine ⟨hEnodup.sublist (List.Sublist.filterMap _ (List.filter_sublist _)),
    hEnodup.sublist (List.Sublist.filterMap _ (List.filter_sublist _)), ?_⟩
  intro g hg1 hg2
  obtain ⟨gh1, hgh1, hk1⟩ := List.mem_filterMap.mp hg1
  obtain ⟨gh2, hgh2, hk2⟩ := List.mem_filterMap.mp hg2
  have hs1 : gh1.state = str "open" := by
    have := List.of_mem_filter hgh1
    simpa using this
  have hs2 : gh2.state = str "closed" := by
    have := List.of_mem_filter hgh2
    simpa using this
  obtain ⟨i1, hi1, hf1, hst1, hkey1⟩ :=
    expIssues_key_gid env L n gh1 hx (List.mem_of_mem_filter hgh1)
  obtain ⟨i2, hi2, hf2, hst2, hkey2⟩ :=
    expIssues_key_gid env L n gh2 hx (List.mem_of_mem_filter hgh2)
  have e1 : i1.gid = g := Option.some.inj (hkey1.symm.trans hk1)
  have e2 : i2.gid = g := Option.some.inj (hkey2.symm.trans hk2)
  have h12 : i1 = i2 := List.inj_on_of_nodup_map hnodup hi1 hi2 (by rw [e1, e2])
  have hcontra : str "open" = str "closed" := by
    rw [← hs1, hst1, h12, ← hst2, hs2]
  exact absurd hcontra (by decide)

/-- On the second run, every non-filtered source issue is matched in the
reconciliation index to its first-run destination copy. -/
theorem run2_index_found (env : Env) (i : GIssue)
    (hnodup : (env.issues.map (fun i => i.gid)).Nodup)
    (hx : ∀ j ∈ env.issues, statusFiltered j = false →
      searchId env.project (mkIssueBody j) = some j.gid)
    (hi : i ∈ env.issues) (hfil : statusFiltered i = false)
    (hstate : i.state = str "open" ∨ i.state = str "closed") :
    ∃ num gh,
      dictGet (get_existing_github_issues env ⟨expIssues env env.issues 1⟩) i.gid =
        some num ∧
      repoGet ⟨expIssues env env.issues 1⟩ num = some gh ∧
      gh.state = i.state ∧ gh.comments = freshComments env i.gid := by
  obtain ⟨m, hm⟩ := expIssues_mem_of env env.issues 1 i hi hfil
  have hkey : searchId env.project (expIssue env i m).body = some i.gid :=
    hx i hi hfil
  have hscan : expIssue env i m ∈ stateScan (expIssues env env.issues 1) := by
    unfold stateScan
    apply List.mem_append.mpr
    rcases hstate with hopen | hclosed
    · exact Or.inl (List.mem_filter.mpr ⟨hm,
        decide_eq_true (show (expIssue env i m).state = str "open" from hopen)⟩)
    · exact Or.inr (List.mem_filter.mpr ⟨hm,
        decide_eq_true (show (expIssue env i m).state = str "closed" from hclosed)⟩)
  refine ⟨(expIssue env i m).number, expIssue env i m, ?_, ?_, rfl, rfl⟩
  · rw [get_existing_eq_scan]
    exact buildDict_found env _ [] _ i.gid hscan hkey
      (stateScan_keys_nodup env env.issues 1 hnodup hx)
  · apply repoGet_nodup
    · rw [expIssues_nums env env.issues 1]
      exact List.nodup_range' _ _
    · exact hm

/-- On the second run, a status-filtered source issue has no entry in the
reconciliation index. -/
theorem run2_index_filtered (env : Env) (i : GIssue)
    (hnodup : (env.issues.map (fun i => i.gid)).Nodup)
    (hx : ∀ j ∈ env.issues, statusFiltered j = false →
      searchId env.project (mkIssueBody j) = some j.gid)
    (hi : i ∈ env.issues) (hfil : statusFiltered i = true) :
    dictGet (get_existing_github_issues env ⟨expIssues env env.issues 1⟩) i.gid =
      none := by
  have hnotin : i.gid ∉ (stateScan (expIssues env env.issues 1)).filterMap
      (fun gh => searchId env.project gh.body) := by
    intro hc
    have hc2 := stateScan_keys_subset env _ i.gid hc
    rw [expIssues_keys env env.issues 1 hx] at hc2
    obtain ⟨j, hj, hjg⟩ := List.mem_map.mp hc2
    have hjmem := List.mem_of_mem_filter hj
    have hjfil : statusFiltered j = false := by
      have := List.of_mem_filter hj
      simpa using this
    have hji : j = i := List.inj_on_of_nodup_map hnodup hjmem hi hjg
    rw [hji] at hjfil
    rw [hjfil] at hfil
    exact absurd hfil (by decide)
  rw [get_existing_eq_scan, buildDict_not_in env _ [] i.gid hnotin]
  rfl

/-- When every source issue resolves to an index entry needing no top-up,
the per-issue loop leaves the state entirely unchanged. -/
theorem run2_list (env : Env) (st : St)
    (hsync : env.opts.synchronizeIds = false)
    (hdry : env.opts.dryRun = false) :
    ∀ (rest : List GIssue) (prev : Nat),
      (∀ i ∈ rest, statusFiltered i = true → dictGet st.emap i.gid = none) →
      (∀ i ∈ rest, statusFiltered i = false → ∃ num gh,
        dictGet st.emap i.gid = some num ∧ repoGet st.repo num = some gh ∧
        gh.state = i.state ∧ add_comments_to_issue env i.gid gh.comments = []) →
      ∃ p', processIssueList env rest st prev = .ok st p' := by
  intro rest
  induction rest with
  | nil => intro prev _ _; exact ⟨prev, rfl⟩
  | cons i rest ih =>
    intro prev hfilh hmigh
    have hcons : processIssueList env (i :: rest) st prev =
        match processIssue env i st prev with
        | .ok st' p' => processIssueList env rest st' p'
        | .abort st' => .abort st' := rfl
    obtain ⟨p', hrest⟩ := ih i.gid
      (fun j hj => hfilh j (List.mem_cons_of_mem _ hj))
      (fun j hj => hmigh j (List.mem_cons_of_mem _ hj))
    refine ⟨p', ?_⟩
    rw [hcons]
    by_cases hf : statusFiltered i = true
    · rw [processIssue_nosync env i st prev hsync,
        processIssueCore_filtered env i st (hfilh i (List.mem_cons_self _ _) hf) hf]
      exact hrest
    · have hf2 : statusFiltered i = false := by simpa using hf
      obtain ⟨num, gh, hd, hg, hs, hc⟩ := hmigh i (List.mem_cons_self _ _) hf2
      rw [processIssue_nosync env i st prev hsync,
        processIssueCore_exists_noop env i st num gh hd hg hc hs hdry]
      exact hrest

/-- The first run of `migrate` against an empty destination creates
exactly the expected issues, in order, numbered from 1. -/
theorem migrate_run1 (env : Env)
    (hdry : env.opts.dryRun = false) (hsync : env.opts.synchronizeIds = false)
    (hrate : ¬ env.rate < GITHUB_SPARE_REQUESTS) :
    ∃ c' cc' p',
      migrate env ⟨[]⟩ = .ok ⟨⟨expIssues env env.issues 1⟩, [], c', cc'⟩ p' := by
  unfold migrate process_gcode_issues
  rw [show get_existing_github_issues env ⟨[]⟩ = [] from rfl]
  rw [processPages_eq_list env (env.issues.length + 1) 1 _ 0 le_rfl
    (by rw [show GOOGLE_MAX_RESULTS = 500 from rfl]; omega)]
  rw [show env.issues.drop (1 - 1) = env.issues from by simp]
  obtain ⟨c', cc', p', hrun⟩ := run1_list env hdry hsync hrate env.issues [] 0 0 0 rfl
  exact ⟨c', cc', p', by rw [hrun]; rfl⟩

/-! ## C10: identity-codec round trip -/

theorem char_digit_toNat (d : Nat) (h : d < 10) :
    (Char.ofNat (48 + d)).toNat = 48 + d := by
  interval_cases d <;> decide

theorem char_digit_isDigit (d : Nat) (h : d < 10) :
    (Char.ofNat (48 + d)).isDigit = true := by
  interval_cases d <;> decide

theorem natStr_all_digits (n : Nat) : ∀ c ∈ natStr n, c.isDigit = true := by
  unfold natStr
  split_ifs with h0
  · intro c hc
    simp only [List.mem_singleton] at hc
    subst hc
    decide
  · intro c hc
    rcases List.mem_map.mp hc with ⟨d, hd, rfl⟩
    have hd10 : d < 10 := by
      have := Nat.digits_lt_base (by norm_num : 1 < 10)
        (by rw [← natDigits_eq_digits]; exact List.mem_reverse.mp hd)
      exact this
    exact char_digit_isDigit d hd10

theorem natStr_ne_nil (n : Nat) : natStr n ≠ [] := by
  unfold natStr
  split_ifs with h0
  · simp
  · simp only [ne_eq, List.map_eq_nil_iff, List.reverse_eq_nil_iff]
    rw [natDigits_eq_digits]
    exact Nat.digits_ne_nil_iff_ne_zero.mpr h0

theorem foldl_digit_chars (xs : List Nat) :
    ∀ (a : Nat), (∀ d ∈ xs, d < 10) →
      ((xs.map (fun d => Char.ofNat (48 + d))).foldl
        (fun acc c => 10 * acc + (c.toNat - 48)) a) =
      xs.foldl (fun acc d => 10 * acc + d) a := by
  induction xs with
  | nil => intro a _; rfl
  | cons d ds ih =>
    intro a h
    have hd : d < 10 := h d (by simp)
    show ((ds.map (fun d => Char.ofNat (48 + d))).foldl
        (fun acc c => 10 * acc + (c.toNat - 48))
        (10 * a + ((Char.ofNat (48 + d)).toNat - 48))) = _
    rw [char_digit_toNat d hd]
    have : 48 + d - 48 = d := by omega
    rw [this]
    exact ih _ (fun e he => h e (by simp [he]))

theorem foldr_eq_ofDigits (l : List Nat) :
    l.foldr (fun d acc => 10 * acc + d) 0 = Nat.ofDigits 10 l := by
  induction l with
  | nil => simp [Nat.ofDigits_nil]
  | cons d ds ih =>
    show 10 * (ds.foldr (fun d acc => 10 * acc + d) 0) + d = _
    rw [ih, Nat.ofDigits_cons]
    ring

theorem parseDigits_natStr (n : Nat) : parseDigits (natStr n) = n := by
  unfold parseDigits natStr
  split_ifs with h0
  · subst h0; decide
  · rw [foldl_digit_chars _ _ (fun d hd => Nat.digits_lt_base (by norm_num : 1 < 10)
      (by rw [← natDigits_eq_digits]; exact List.mem_reverse.mp hd))]
    rw [List.foldl_reverse]
    have : (fun (x : Nat) (y : Nat) => 10 * y + x) = fun x y => 10 * y + x := rfl
    rw [show (natDigits n).foldr (fun x y => 10 * y + x) 0 =
        (natDigits n).foldr (fun d acc => 10 * acc + d) 0 from rfl]
    rw [foldr_eq_ofDigits, natDigits_eq_digits, Nat.ofDigits_digits]

theorem patDrop_lits_front (t : Str) (q : List PatC) (r : Str) :
    patDrop (t.map PatC.lit ++ q) (t ++ r) = patDrop q r := by
  induction t with
  | nil => rfl
  | cons c cs ih =>
    show (if c = c then patDrop (cs.map PatC.lit ++ q) (cs ++ r) else none) = _
    rw [if_pos rfl]
    exact ih

theorem patDrop_lits_self (t r : Str) :
    patDrop (t.map PatC.lit) (t ++ r) = some r := by
  have h := patDrop_lits_front t [] r
  rw [List.append_nil] at h
  rw [h]
  rfl

/-- Matching `GOOGLE_ID_RE % proj` right at the back-reference footer
built from `GOOGLE_ISSUE_TEMPLATE` and `GOOGLE_URL` recovers the id. -/
theorem matchIdAt_footer (proj : Str) (n : Nat) :
    matchIdAt proj (googleIssueTemplate (googleUrl proj n)) = some n := by
  have hfoot : googleIssueTemplate (googleUrl proj n) =
      str "_Original issue: http://code" ++ '.' :: (str "google" ++ '.' ::
        (str "com/p/" ++ (proj ++ (str "/issues/detail?id=" ++
          (natStr n ++ ['_']))))) := by
    unfold googleIssueTemplate googleUrl
    simp only [List.append_assoc]
    rfl
  have hpat : patDrop (idPattern proj) (googleIssueTemplate (googleUrl proj n)) =
      some (natStr n ++ ['_']) := by
    rw [hfoot]
    unfold idPattern
    simp only [List.append_assoc]
    rw [show lits "_Original issue: http://code" =
        (str "_Original issue: http://code").map PatC.lit from rfl]
    rw [patDrop_lits_front]
    show patDrop (lits "google" ++ _) (str "google" ++ _) = _
    rw [show lits "google" = (str "google").map PatC.lit from rfl]
    rw [patDrop_lits_front]
    show patDrop (lits "com/p/" ++ _) (str "com/p/" ++ _) = _
    rw [show lits "com/p/" = (str "com/p/").map PatC.lit from rfl]
    rw [patDrop_lits_front, patDrop_lits_front]
    rw [show lits "/issues/detail?id=" =
        (str "/issues/detail?id=").map PatC.lit from rfl]
    exact patDrop_lits_self _ _
  unfold matchIdAt
  rw [hpat]
  show (if (natStr n ++ ['_']).takeWhile Char.isDigit = [] then none
    else
      match (natStr n ++ ['_']).drop
          ((natStr n ++ ['_']).takeWhile Char.isDigit).length with
      | '_' :: _ => some (parseDigits ((natStr n ++ ['_']).takeWhile Char.isDigit))
      | _ => none) = some n
  have hsplit := takeWhile_all_append Char.isDigit (natStr n) '_' []
    (natStr_all_digits n) (by decide)
  rw [hsplit.1]
  rw [if_neg (natStr_ne_nil n)]
  rw [List.drop_left]
  rw [parseDigits_natStr]
  rfl

theorem searchId_cons (proj : Str) (c : Char) (t : Str) :
    searchId proj (c :: t) =
      match matchIdAt proj (c :: t) with
      | some k => some k
      | none => searchId proj t := rfl

theorem searchId_skip (proj : Str) : ∀ (pre s : Str),
    (∀ i < pre.length, matchIdAt proj ((pre ++ s).drop i) = none) →
    searchId proj (pre ++ s) = searchId proj s := by
  intro pre
  induction pre with
  | nil => intro s _; rfl
  | cons c cs ih =>
    intro s h
    show searchId proj (c :: (cs ++ s)) = _
    rw [searchId_cons]
    have h0 : matchIdAt proj (c :: (cs ++ s)) = none := by
      have := h 0 (by simp)
      simpa using this
    rw [h0]
    exact ih s (fun i hi => by
      have := h (i + 1) (by simpa using Nat.succ_lt_succ hi)
      simpa using this)

/-- C10: identity-codec round trip.  For every regex-safe project name and
every source issue id, running the reconciliation pattern
(`GOOGLE_ID_RE % proj`) over a destination body that ends in the
back-reference footer built from `GOOGLE_ISSUE_TEMPLATE` and `GOOGLE_URL`
recovers exactly that id (the hypothesis says the leading part of the body
offers the pattern no earlier match).  The write-side template and
read-side pattern are the same byte string, so reconciliation recognises
every issue the migration previously created. -/
theorem google_id_roundtrip (proj pre : Str) (n : Nat)
    (_hsafe : projSafe proj = true)
    (hclean : ∀ i < pre.length,
      matchIdAt proj ((pre ++ googleIssueTemplate (googleUrl proj n)).drop i) = none) :
    searchId proj (pre ++ googleIssueTemplate (googleUrl proj n)) = some n := by
  rw [searchId_skip proj pre _ hclean]
  have hcons : googleIssueTemplate (googleUrl proj n) =
      '_' :: ((str "Original issue: " ++ googleUrl proj n) ++ ['_']) := rfl
  rw [hcons, searchId_cons, ← hcons, matchIdAt_footer]

/-- Witness for `google_id_roundtrip` at a concrete project, id and
issue-body prefix. -/
theorem google_id_roundtrip_witness :
    projSafe (str "chromium") = true ∧
    (∀ i < (str "_Original author: bob (June 01, 2011 10:00:00)_\n\nsome report\n\n\n").length,
      matchIdAt (str "chromium")
        (((str "_Original author: bob (June 01, 2011 10:00:00)_\n\nsome report\n\n\n") ++
          googleIssueTemplate (googleUrl (str "chromium") 1234)).drop i) = none) ∧
    searchId (str "chromium")
      ((str "_Original author: bob (June 01, 2011 10:00:00)_\n\nsome report\n\n\n") ++
        googleIssueTemplate (googleUrl (str "chromium") 1234)) = some 1234 := by
  refine ⟨by decide, by decide, ?_⟩
  exact google_id_roundtrip (str "chromium") _ 1234 (by decide) (by decide)

/-! ## C5: `should_migrate_comment` -/

/-- The spec-side reading of the automated-merge-message test: the free
text *begins with* `Issue <digits> has been merged into this issue`
followed by at least one character that is not a newline (the regex's
unescaped `.`, which without `re.DOTALL` does not match `\n`). -/
def StartsWithMergedMsg (s : Str) : Prop :=
  ∃ ds c rest, s = str "Issue " ++ ds ++
      str " has been merged into this issue" ++ c :: rest ∧
    ds ≠ [] ∧ (∀ d ∈ ds, d.isDigit = true) ∧ c ≠ '\n'

theorem mergedMsgRe_iff (s : Str) :
    mergedMsgRe s = true ↔ StartsWithMergedMsg s := by
  constructor
  · intro h
    unfold mergedMsgRe at h
    by_cases h1 : (str "Issue ").isPrefixOf s
    case neg => rw [if_neg h1] at h; exact absurd h (by decide)
    rw [if_pos h1] at h
    by_cases h2 : (s.drop (str "Issue ").length).takeWhile Char.isDigit = []
    case pos => rw [if_pos h2] at h; exact absurd h (by decide)
    rw [if_neg h2] at h
    by_cases h3 : (str " has been merged into this issue").isPrefixOf
        ((s.drop (str "Issue ").length).dropWhile Char.isDigit)
    case neg => rw [if_neg h3] at h; exact absurd h (by decide)
    rw [if_pos h3] at h
    obtain ⟨t, ht⟩ := List.isPrefixOf_iff_prefix.mp h1
    have hdrop : s.drop (str "Issue ").length = t := by rw [← ht, List.drop_left]
    rw [hdrop] at h2 h3 h
    obtain ⟨u, hu⟩ := List.isPrefixOf_iff_prefix.mp h3
    have hdropu : (t.dropWhile Char.isDigit).drop
        (str " has been merged into this issue").length = u := by
      rw [← hu, List.drop_left]
    rw [hdropu] at h
    cases u with
    | nil => exact absurd h (by decide)
    | cons c rest =>
      refine ⟨t.takeWhile Char.isDigit, c, rest, ?_, h2,
        fun d hd => List.mem_takeWhile_imp hd, of_decide_eq_true h⟩
      rw [← ht]
      calc str "Issue " ++ t
          = str "Issue " ++
            (t.takeWhile Char.isDigit ++ t.dropWhile Char.isDigit) := by
            rw [List.takeWhile_append_dropWhile]
        _ = str "Issue " ++ (t.takeWhile Char.isDigit ++
            (str " has been merged into this issue" ++ c :: rest)) := by rw [hu]
        _ = str "Issue " ++ t.takeWhile Char.isDigit ++
            str " has been merged into this issue" ++ c :: rest := by
            simp [List.append_assoc]
  · rintro ⟨ds, c, rest, hs, hne, hdig, hcnl⟩
    have hs' : s = str "Issue " ++
        (ds ++ (str " has been merged into this issue" ++ c :: rest)) := by
      rw [hs]; simp [List.append_assoc]
    have hpre : (str "Issue ").isPrefixOf s :=
      List.isPrefixOf_iff_prefix.mpr (by rw [hs']; exact List.prefix_append _ _)
    have hdrop : s.drop (str "Issue ").length =
        ds ++ (str " has been merged into this issue" ++ c :: rest) := by
      rw [hs', List.drop_left]
    have hcons : str " has been merged into this issue" ++ c :: rest =
        ' ' :: (str "has been merged into this issue" ++ c :: rest) := rfl
    have hsplit := takeWhile_all_append Char.isDigit ds ' '
      (str "has been merged into this issue" ++ c :: rest) hdig (by decide)
    unfold mergedMsgRe
    rw [if_pos hpre, hdrop, hcons, hsplit.1, if_neg hne, hsplit.2, ← hcons]
    rw [if_pos (List.isPrefixOf_iff_prefix.mpr (List.prefix_append _ _))]
    rw [List.drop_left]
    exact decide_eq_true hcnl

/-- A comment whose text extends the automated message: the claim's
condition (a) holds — non-empty text, not equal to the automated string —
yet the function refuses it, because `re.match` is a prefix match. -/
def c5cex : GComment :=
  { cid := 7, author := str "a", date := str "D",
    content := str "Issue 5 has been merged into this issue. Thanks for the report",
    mergedInto := none }

/-- C5, counterexample: `should_migrate_comment` answers `False` on a
comment whose free text is non-empty and differs from the literal string
`Issue 5 has been merged into this issue.`, refuting the claimed
if-and-only-if characterisation. -/
theorem c5_counterexample :
    should_migrate_comment c5cex = false ∧
    c5cex.content ≠ [] ∧
    (∀ ds : Str,
      c5cex.content ≠ str "Issue " ++ ds ++
        str " has been merged into this issue.") ∧
    c5cex.mergedInto = none := by
  refine ⟨by decide, by decide, ?_, by decide⟩
  intro ds h
  have h2 := congrArg List.getLast? h
  rw [List.getLast?_append_of_ne_nil _ (by decide)] at h2
  revert h2
  decide

/-- C5, amended: `should_migrate_comment(comment)` returns `True` iff
either the free text is non-empty and does *not begin with* an automated
merge message `Issue <digits> has been merged into this issue<any char
except newline>` (`re.match` is an unanchored-at-the-end prefix match
and the final `.` of the pattern is a wildcard that, without
`re.DOTALL`, does not match `\n`), or the free text is empty and the
comment carries a structured merged-into marker. -/
theorem should_migrate_comment_spec (c : GComment) :
    should_migrate_comment c = true ↔
      ((c.content ≠ [] ∧ ¬StartsWithMergedMsg c.content) ∨
       (c.content = [] ∧ c.mergedInto.isSome = true)) := by
  unfold should_migrate_comment
  by_cases hc : c.content = []
  · simp [hc]
  · rw [if_pos (by simpa using hc)]
    rw [Bool.not_eq_true', ← Bool.not_eq_true, mergedMsgRe_iff]
    tauto

/-! ## C6: merge-comment translation -/

/-- An empty-bodied comment with merged-into marker `7`. -/
def c6cex : GComment :=
  { cid := 3, author := str "a", date := str "D", content := [],
    mergedInto := some 7 }

/-- Options with `--base-id 100`. -/
def opts6 : Opts :=
  { assignOwner := false, baseId := 100, dryRun := false,
    omitPriority := false, synchronizeIds := false }

/-- C6, counterexample: under base-id 100 the migrated body of an
empty-bodied comment with merged-into marker 7 is *not* the bare text
`This issue is a duplicate of #107` — the script wraps the message in
markdown-italics underscores. -/
theorem c6_counterexample :
    format_comment opts6 c6cex ≠ str "This issue is a duplicate of #107" ∧
    format_comment opts6 c6cex = str "_This issue is a duplicate of #107_" := by
  constructor
  · decide
  · decide

/-- C6, amended: for every comment carrying a merged-into marker `m` under
base-id `b`, `format_comment` returns exactly
`_This issue is a duplicate of #<b+m>_` (the spec's text, wrapped in the
underscore italics markers the script emits). -/
theorem format_comment_merged (opts : Opts) (c : GComment) (m : Nat)
    (h : c.mergedInto = some m) :
    format_comment opts c =
      str "_This issue is a duplicate of #" ++ natStr (opts.baseId + m) ++ ['_'] := by
  unfold format_comment
  rw [h]

/-- Witness for `format_comment_merged` at the concrete C6 scenario. -/
theorem format_comment_merged_witness :
    format_comment opts6 c6cex =
      str "_This issue is a duplicate of #" ++ natStr (opts6.baseId + 7) ++ ['_'] :=
  format_comment_merged opts6 c6cex 7 (by decide)

/-! ## C2: comment pagination stops at a fully-filtered page -/

/-- A comment with empty free text and no merged-into marker: dropped by
`should_migrate_comment`. -/
def c2noise : GComment :=
  { cid := 1, author := str "a", date := str "D", content := [],
    mergedInto := none }

/-- A real comment sitting on the second source page. -/
def c2real : GComment :=
  { cid := 501, author := str "b", date := str "D", content := str "real text",
    mergedInto := none }

/-- Environment for the C2 failing input: one issue whose comment feed has
a full first page (`GOOGLE_MAX_RESULTS` noise comments) followed by one
migratable comment on page two. -/
def env2 : Env :=
  { project := str "p",
    opts := { assignOwner := false, baseId := 0, dryRun := false,
              omitPriority := false, synchronizeIds := false },
    rate := 100, userLogin := str "me", issues := [],
    comments := fun _ => List.replicate GOOGLE_MAX_RESULTS c2noise ++ [c2real] }

set_option maxRecDepth 100000 in
/-- C2, failing input: the first fetched comment page is non-empty (500
entries) and a migratable comment exists on page two, yet
`add_comments_to_issue` posts nothing: the loop breaks because the
*filtered* page is empty, never advancing to page two.  The claim (and the
spec) say the loop terminates only when a *fetched* page has zero entries. -/
theorem c2_code_bug :
    ((env2.comments 1).drop 0).take GOOGLE_MAX_RESULTS ≠ [] ∧
    should_migrate_comment c2real = true ∧
    c2real ∈ env2.comments 1 ∧
    add_comments_to_issue env2 1 [] = [] := by
  refine ⟨by decide, by decide, by decide, by decide⟩

/-! ## C3: dry run still mutates the destination -/

/-- A source issue with id 2 (so synchronize-ids sees a gap at id 1). -/
def i3cex : GIssue :=
  { gid := 2, title := str "t", link := googleUrl (str "p") 2,
    author := str "a", content := str "c", date := str "D",
    status := none, state := str "open", labels := [], owner := false }

/-- `--dry-run --synchronize-ids` environment over an empty destination. -/
def env3 : Env :=
  { project := str "p",
    opts := { assignOwner := false, baseId := 0, dryRun := true,
              omitPriority := false, synchronizeIds := true },
    rate := 100, userLogin := str "me", issues := [i3cex],
    comments := fun _ => [] }

/-- C3, failing input: under `--dry-run --synchronize-ids` with source
issue ids `{2}` and an empty destination, the run *creates and closes* a
placeholder destination issue for id 1 (`create_issue` and `edit` are
called without consulting `options.dry_run` in the placeholder block), so
the destination is not left unchanged. -/
theorem c3_code_bug :
    migrate env3 ⟨[]⟩ = .ok ⟨⟨[mkPlaceholder env3 1 1]⟩, [(1, 1)], 1, 0⟩ 2 ∧
    (⟨[mkPlaceholder env3 1 1]⟩ : Repo) ≠ (⟨[]⟩ : Repo) := by
  constructor
  · decide
  · decide

/-! ## C9: backlink rewrite -/

/-- C9, counterexample: the backlink pass on a body containing
`see issue #5` with the id map `{5 ↦ 42}` appends a `(Github: #42)`
annotation, not the `(Destination: #42)` text the claim quotes. -/
theorem c9_counterexample :
    backlinkRewrite (str "p") [(5, 42)] (str "see issue #5") =
      str "see issue #&#8203;5 (Github: #42)" ∧
    isSubstr (str "(Destination: #42)")
      (backlinkRewrite (str "p") [(5, 42)] (str "see issue #5")) = false := by
  constructor
  · decide
  · decide

/-- C9, amended: on a migrated body containing `see issue #5`, with source
id 5 mapped to destination issue 42, one application of the backlink
rewrite keeps the original digit `5` and appends the destination-id
annotation in its actual spelling `(Github: #42)` (with a zero-width space
to suppress auto-linking), and a second application leaves the rewritten
body unchanged — no duplicated annotation. -/
theorem backlink_rewrite_idempotent :
    backlinkRewrite (str "p") [(5, 42)] (str "see issue #5") =
      str "see issue #&#8203;5 (Github: #42)" ∧
    isSubstr (str "5") (backlinkRewrite (str "p") [(5, 42)] (str "see issue #5")) = true ∧
    isSubstr (str "(Github: #42)")
      (backlinkRewrite (str "p") [(5, 42)] (str "see issue #5")) = true ∧
    backlinkRewrite (str "p") [(5, 42)]
      (backlinkRewrite (str "p") [(5, 42)] (str "see issue #5")) =
      backlinkRewrite (str "p") [(5, 42)] (str "see issue #5") := by
  refine ⟨by decide, by decide, by decide, by decide⟩

/-! ## C7: heading escape -/

/-- Lines of a body, interleaved with `'\n'`: the continuation after the
first line. -/
def joinTail : List Str → Str
  | [] => []
  | l :: ls => '\n' :: (l ++ joinTail ls)

/-- `joinLines [l0, l1, …] = l0 ++ "\n" ++ l1 ++ …` -/
def joinLines : List Str → Str
  | [] => []
  | l :: ls => l ++ joinTail ls

/-- Effect of the first replace on one non-first line. -/
def escHash (l : Str) : Str :=
  match l with
  | c :: t => if c = '#' then '#' :: (zeroWidth ++ t) else c :: t
  | [] => []

/-- Effect of the second replace on one non-first line. -/
def escSpaceHash (l : Str) : Str :=
  match l with
  | a :: b :: t => if a = ' ' ∧ b = '#' then ' ' :: '#' :: (zeroWidth ++ t) else a :: b :: t
  | _ => l

/-- Combined effect of `cleanContent` on one non-first line. -/
def escLine (l : Str) : Str := escSpaceHash (escHash l)

theorem isPrefixOf_cons_cons (a c : Char) (ps cs : Str) :
    (a :: ps).isPrefixOf (c :: cs) = (a == c && ps.isPrefixOf cs) := rfl

theorem replaceAll_no_newline (p rep s : Str) (h : ∀ c ∈ s, c ≠ '\n') :
    replaceAll ('\n' :: p) rep s = s := by
  induction s with
  | nil => rfl
  | cons c cs ih =>
    rw [replaceAll_cons]
    have hc : c ≠ '\n' := h c (by simp)
    have hpre : ('\n' :: p).isPrefixOf (c :: cs) = false := by
      rw [isPrefixOf_cons_cons]
      have hb : ('\n' == c) = false := by
        simp only [beq_eq_false_iff_ne, ne_eq]
        exact fun hh => hc hh.symm
      simp [hb]
    rw [if_neg (ne_true_of_eq_false hpre)]
    rw [ih (fun d hd => h d (by simp [hd]))]

theorem replaceAll_append_line (p rep : Str) (l s : Str)
    (h : ∀ c ∈ l, c ≠ '\n') :
    replaceAll ('\n' :: p) rep (l ++ s) = l ++ replaceAll ('\n' :: p) rep s := by
  induction l with
  | nil => rfl
  | cons c cs ih =>
    have hc : c ≠ '\n' := h c (by simp)
    show replaceAll ('\n' :: p) rep (c :: (cs ++ s)) = _
    rw [replaceAll_cons]
    have hpre : ('\n' :: p).isPrefixOf (c :: (cs ++ s)) = false := by
      rw [isPrefixOf_cons_cons]
      have hb : ('\n' == c) = false := by
        simp only [beq_eq_false_iff_ne, ne_eq]
        exact fun hh => hc hh.symm
      simp [hb]
    rw [if_neg (ne_true_of_eq_false hpre)]
    rw [ih (fun d hd => h d (by simp [hd]))]
    rfl

theorem joinTail_shape (ls : List Str) :
    joinTail ls = [] ∨ ∃ xs, joinTail ls = '\n' :: xs := by
  cases ls with
  | nil => exact Or.inl rfl
  | cons l ls => exact Or.inr ⟨_, rfl⟩

/-- The first replace of `cleanContent` escapes exactly the non-first
lines beginning with `#`. -/
theorem replaceAll_hash_joinTail (ls : List Str)
    (h : ∀ l ∈ ls, ∀ c ∈ l, c ≠ '\n') :
    replaceAll (str "\n#") (str "\n#" ++ zeroWidth) (joinTail ls) =
      joinTail (ls.map escHash) := by
  have epat : str "\n#" = '\n' :: ['#'] := rfl
  induction ls with
  | nil => rfl
  | cons l ls ih =>
    have hl : ∀ c ∈ l, c ≠ '\n' := h l (by simp)
    have hls : ∀ l' ∈ ls, ∀ c ∈ l', c ≠ '\n' := fun l' hl' => h l' (by simp [hl'])
    show replaceAll (str "\n#") (str "\n#" ++ zeroWidth) ('\n' :: (l ++ joinTail ls)) = _
    cases l with
    | nil =>
      rw [epat, replaceAll_cons]
      have hpre : ('\n' :: ['#']).isPrefixOf ('\n' :: ([] ++ joinTail ls)) = false := by
        rw [isPrefixOf_cons_cons]
        rcases joinTail_shape ls with hsh | ⟨xs, hsh⟩ <;>
          simp [hsh, List.isPrefixOf, isPrefixOf_cons_cons]
      rw [if_neg (ne_true_of_eq_false hpre)]
      show '\n' :: replaceAll ('\n' :: ['#']) (str "\n#" ++ zeroWidth) (joinTail ls) = _
      rw [← epat, ih hls]
      rfl
    | cons c t =>
      by_cases hch : c = '#'
      · subst hch
        rw [epat, replaceAll_cons]
        rw [if_pos (by rw [isPrefixOf_cons_cons]; simp [List.isPrefixOf, isPrefixOf_cons_cons])]
        have hdrop : ((('#' :: t) ++ joinTail ls).drop (('\n' :: ['#']).length - 1)) =
            t ++ joinTail ls := rfl
        rw [hdrop]
        rw [replaceAll_append_line _ _ t _ (fun d hd => hl d (by simp [hd]))]
        rw [← epat, ih hls]
        show ('\n' :: '#' :: zeroWidth) ++ (t ++ joinTail (ls.map escHash)) =
          joinTail (escHash ('#' :: t) :: ls.map escHash)
        show ('\n' :: '#' :: zeroWidth) ++ (t ++ joinTail (ls.map escHash)) =
          '\n' :: (escHash ('#' :: t) ++ joinTail (ls.map escHash))
        have heh : escHash ('#' :: t) = '#' :: (zeroWidth ++ t) := by
          show (if ('#' : Char) = '#' then '#' :: (zeroWidth ++ t) else '#' :: t) =
            '#' :: (zeroWidth ++ t)
          exact if_pos rfl
        rw [heh]
        simp
      · rw [epat, replaceAll_cons]
        have hpre : ('\n' :: ['#']).isPrefixOf ('\n' :: ((c :: t) ++ joinTail ls)) = false := by
          rw [isPrefixOf_cons_cons]
          show (('\n' == '\n') && (('#' :: []).isPrefixOf (c :: (t ++ joinTail ls)))) = false
          rw [isPrefixOf_cons_cons]
          have hb : ('#' == c) = false := by
            simp only [beq_eq_false_iff_ne, ne_eq]
            exact fun hh => hch hh.symm
          simp [hb]
        rw [if_neg (ne_true_of_eq_false hpre)]
        show '\n' :: replaceAll ('\n' :: ['#']) (str "\n#" ++ zeroWidth) ((c :: t) ++ joinTail ls) = _
        rw [replaceAll_append_line _ _ (c :: t) _ hl, ← epat, ih hls]
        have heh : escHash (c :: t) = c :: t := by
          show (if c = '#' then '#' :: (zeroWidth ++ t) else c :: t) = c :: t
          exact if_neg hch
        show '\n' :: ((c :: t) ++ joinTail (ls.map escHash)) =
          '\n' :: (escHash (c :: t) ++ joinTail (ls.map escHash))
        rw [heh]

/-- The second replace of `cleanContent` escapes exactly the non-first
lines beginning with `" #"` (one space then hash). -/
theorem replaceAll_spacehash_joinTail (ls : List Str)
    (h : ∀ l ∈ ls, ∀ c ∈ l, c ≠ '\n') :
    replaceAll (str "\n #") (str "\n #" ++ zeroWidth) (joinTail ls) =
      joinTail (ls.map escSpaceHash) := by
  have epat : str "\n #" = '\n' :: [' ', '#'] := rfl
  induction ls with
  | nil => rfl
  | cons l ls ih =>
    have hl : ∀ c ∈ l, c ≠ '\n' := h l (by simp)
    have hls : ∀ l' ∈ ls, ∀ c ∈ l', c ≠ '\n' := fun l' hl' => h l' (by simp [hl'])
    show replaceAll (str "\n #") (str "\n #" ++ zeroWidth) ('\n' :: (l ++ joinTail ls)) = _
    have hstep : ∀ (l' : Str), (∀ c ∈ l', c ≠ '\n') → escSpaceHash l' = l' →
        (('\n' :: [' ', '#']).isPrefixOf ('\n' :: (l' ++ joinTail ls)) = false) →
        replaceAll (str "\n #") (str "\n #" ++ zeroWidth) ('\n' :: (l' ++ joinTail ls)) =
          '\n' :: (escSpaceHash l' ++ joinTail (ls.map escSpaceHash)) := by
      intro l' hl' hesc hpre
      rw [epat, replaceAll_cons, if_neg (ne_true_of_eq_false hpre)]
      show '\n' :: replaceAll ('\n' :: [' ', '#']) (str "\n #" ++ zeroWidth)
        (l' ++ joinTail ls) = _
      rw [replaceAll_append_line _ _ l' _ hl', ← epat, ih hls, hesc]
    cases l with
    | nil =>
      refine hstep [] hl rfl ?_
      rw [isPrefixOf_cons_cons]
      rcases joinTail_shape ls with hsh | ⟨xs, hsh⟩ <;>
        simp [hsh, List.isPrefixOf, isPrefixOf_cons_cons]
    | cons a rest =>
      by_cases ha : a = ' '
      · subst ha
        cases rest with
        | nil =>
          refine hstep [' '] hl rfl ?_
          rw [isPrefixOf_cons_cons]
          show (('\n' == '\n') && ([' ', '#'].isPrefixOf (' ' :: joinTail ls))) = false
          rw [isPrefixOf_cons_cons]
          rcases joinTail_shape ls with hsh | ⟨xs, hsh⟩ <;>
            simp [hsh, List.isPrefixOf, isPrefixOf_cons_cons]
        | cons b t =>
          by_cases hb : b = '#'
          · subst hb
            rw [epat, replaceAll_cons]
            rw [if_pos (by rw [isPrefixOf_cons_cons]
                           show (('\n' == '\n') &&
                             ([' ', '#'].isPrefixOf (' ' :: '#' :: (t ++ joinTail ls)))) = true
                           rw [isPrefixOf_cons_cons]
                           show (('\n' == '\n') && (' ' == ' ') &&
                             (['#'].isPrefixOf ('#' :: (t ++ joinTail ls)))) = true
                           rw [isPrefixOf_cons_cons]
                           simp [List.isPrefixOf])]
            have hdrop : (((' ' :: '#' :: t) ++ joinTail ls).drop
                (('\n' :: [' ', '#']).length - 1)) = t ++ joinTail ls := rfl
            rw [hdrop]
            rw [replaceAll_append_line _ _ t _ (fun d hd => hl d (by simp [hd]))]
            rw [← epat, ih hls]
            have hesc : escSpaceHash (' ' :: '#' :: t) = ' ' :: '#' :: (zeroWidth ++ t) := by
              show (if (' ' : Char) = ' ' ∧ ('#' : Char) = '#' then
                ' ' :: '#' :: (zeroWidth ++ t) else ' ' :: '#' :: t) = _
              exact if_pos ⟨rfl, rfl⟩
            show ('\n' :: ' ' :: '#' :: zeroWidth) ++ (t ++ joinTail (ls.map escSpaceHash)) =
              '\n' :: (escSpaceHash (' ' :: '#' :: t) ++ joinTail (ls.map escSpaceHash))
            rw [hesc]
            simp
          · refine hstep (' ' :: b :: t) hl ?_ ?_
            · show (if (' ' : Char) = ' ' ∧ b = '#' then
                ' ' :: '#' :: (zeroWidth ++ t) else ' ' :: b :: t) = ' ' :: b :: t
              exact if_neg (fun hc => hb hc.2)
            · rw [isPrefixOf_cons_cons]
              show (('\n' == '\n') &&
                ([' ', '#'].isPrefixOf (' ' :: (b :: t ++ joinTail ls)))) = false
              rw [isPrefixOf_cons_cons]
              show (('\n' == '\n') && (' ' == ' ') &&
                (['#'].isPrefixOf (b :: (t ++ joinTail ls)))) = false
              rw [isPrefixOf_cons_cons]
              have hbb : ('#' == b) = false := by
                simp only [beq_eq_false_iff_ne, ne_eq]
                exact fun hh => hb hh.symm
              simp [hbb]
      · have hesc : escSpaceHash (a :: rest) = a :: rest := by
          cases rest with
          | nil => rfl
          | cons b t =>
            show (if a = ' ' ∧ b = '#' then ' ' :: '#' :: (zeroWidth ++ t)
              else a :: b :: t) = a :: b :: t
            exact if_neg (fun hc => ha hc.1)
        refine hstep (a :: rest) hl hesc ?_
        rw [isPrefixOf_cons_cons]
        show (('\n' == '\n') &&
          ([' ', '#'].isPrefixOf (a :: (rest ++ joinTail ls)))) = false
        rw [isPrefixOf_cons_cons]
        have haa : (' ' == a) = false := by
          simp only [beq_eq_false_iff_ne, ne_eq]
          exact fun hh => ha hh.symm
        simp [haa]

/-- The lines of `escHash l` contain no newline when `l` does not. -/
theorem escHash_no_newline (l : Str) (h : ∀ c ∈ l, c ≠ '\n') :
    ∀ c ∈ escHash l, c ≠ '\n' := by
  cases l with
  | nil => exact h
  | cons a t =>
    by_cases ha : a = '#'
    · subst ha
      have he : escHash ('#' :: t) = '#' :: (zeroWidth ++ t) := by
        show (if ('#' : Char) = '#' then '#' :: (zeroWidth ++ t) else '#' :: t) = _
        exact if_pos rfl
      rw [he]
      intro c hc
      rcases List.mem_cons.mp hc with rfl | hc2
      · decide
      · rcases List.mem_append.mp hc2 with hz | ht
        · intro hcontra
          subst hcontra
          revert hz
          decide
        · exact h c (List.mem_cons_of_mem _ ht)
    · have he : escHash (a :: t) = a :: t := by
        show (if a = '#' then '#' :: (zeroWidth ++ t) else a :: t) = a :: t
        exact if_neg ha
      rw [he]
      exact h

/-- C7, counterexample: a body whose *first* line is `# heading` passes
through `cleanContent` unchanged — no zero-width marker is inserted after
its `#`, because both replaces only target occurrences preceded by a
newline.  The claim says every such line, including the first, is
rewritten. -/
theorem c7_counterexample :
    cleanContent (str "# heading") = str "# heading" ∧
    isSubstr zeroWidth (cleanContent (str "# heading")) = false := by
  constructor
  · decide
  · decide

/-- C7, amended: `cleanContent` (the transformation shared by issue and
comment bodies) rewrites every content line *other than the first* that
begins with `#` or with `" #"`, inserting the zero-width marker
immediately after the `#` (`escLine`); every other line, and always the
first line, is left unchanged. -/
theorem cleanContent_lines (l0 : Str) (ls : List Str)
    (h0 : ∀ c ∈ l0, c ≠ '\n') (h : ∀ l ∈ ls, ∀ c ∈ l, c ≠ '\n') :
    cleanContent (joinLines (l0 :: ls)) = joinLines (l0 :: ls.map escLine) := by
  unfold cleanContent
  show replaceAll (str "\n #") (str "\n #" ++ zeroWidth)
    (replaceAll (str "\n#") (str "\n#" ++ zeroWidth) (l0 ++ joinTail ls)) = _
  have e1 : str "\n#" = '\n' :: ['#'] := rfl
  have e2 : str "\n #" = '\n' :: [' ', '#'] := rfl
  rw [e1, replaceAll_append_line _ _ l0 _ h0, ← e1, replaceAll_hash_joinTail ls h]
  rw [e2, replaceAll_append_line _ _ l0 _ h0, ← e2,
    replaceAll_spacehash_joinTail (ls.map escHash)
      (fun l' hl' => by
        rcases List.mem_map.mp hl' with ⟨l, hmem, rfl⟩
        exact escHash_no_newline l (h l hmem))]
  show l0 ++ joinTail ((ls.map escHash).map escSpaceHash) = _
  rw [List.map_map]
  rfl

/-- Witness for `cleanContent_lines`: the spec's own example, as the
second line of a two-line body. -/
theorem cleanContent_lines_witness :
    (∀ c ∈ str "intro", c ≠ '\n') ∧
    (∀ l ∈ [str "# heading"], ∀ c ∈ l, c ≠ '\n') ∧
    cleanContent (joinLines [str "intro", str "# heading"]) =
      joinLines [str "intro", str "#&#8203; heading"] := by
  refine ⟨by decide, by decide, ?_⟩
  have h := cleanContent_lines (str "intro") [str "# heading"]
    (by decide) (by decide)
  rw [h]
  decide

/-! ## C1: running the migration twice -/

/-- C1: running the full migration twice against the same initially-empty
destination with identical source data changes nothing on the second run.
After a first run from an empty repository, a second run over its output
matches every source id through the reconciliation index built by
`get_existing_github_issues` and ends with the repository unchanged, the
issue-creation counter at `0` and the comment-creation counter at `0`.
The hypotheses delimit the configuration the claim speaks about: no
dry-run, no synchronize-ids, quota above the safety margin, distinct
source ids, bodies whose leading content does not collide with the
id-extraction pattern, destination-legal states, and comment stamps that
survive the zero-width-space normalisation unchanged. -/
theorem migrate_twice_idempotent (env : Env)
    (hdry : env.opts.dryRun = false)
    (hsync : env.opts.synchronizeIds = false)
    (hrate : ¬ env.rate < GITHUB_SPARE_REQUESTS)
    (hnodup : (env.issues.map (fun i => i.gid)).Nodup)
    (hx : ∀ i ∈ env.issues, statusFiltered i = false →
      searchId env.project (mkIssueBody i) = some i.gid)
    (hstates : ∀ i ∈ env.issues, statusFiltered i = false →
      i.state = str "open" ∨ i.state = str "closed")
    (hnorm : ∀ i ∈ env.issues, ∀ c ∈ env.comments i.gid,
      normalizeExisting (format_comment env.opts c) = format_comment env.opts c) :
    ∃ st1 p1 p2,
      migrate env ⟨[]⟩ = .ok st1 p1 ∧
      migrate env st1.repo =
        .ok ⟨st1.repo, get_existing_github_issues env st1.repo, 0, 0⟩ p2 := by
  obtain ⟨c1, cc1, p1, hrun1⟩ := migrate_run1 env hdry hsync hrate
  have hrun2 : ∃ p2, migrate env ⟨expIssues env env.issues 1⟩ =
      .ok ⟨⟨expIssues env env.issues 1⟩,
        get_existing_github_issues env ⟨expIssues env env.issues 1⟩, 0, 0⟩ p2 := by
    unfold migrate process_gcode_issues
    rw [processPages_eq_list env (env.issues.length + 1) 1 _ 0 le_rfl
      (by rw [show GOOGLE_MAX_RESULTS = 500 from rfl]; omega)]
    rw [show env.issues.drop (1 - 1) = env.issues from by simp]
    exact run2_list env
      ⟨⟨expIssues env env.issues 1⟩,
        get_existing_github_issues env ⟨expIssues env env.issues 1⟩, 0, 0⟩
      hsync hdry env.issues 0
      (fun i hi hf => run2_index_filtered env i hnodup hx hi hf)
      (fun i hi hf => by
        obtain ⟨num, gh, hd, hg, hs, hcom⟩ :=
          run2_index_found env i hnodup hx hi hf (hstates i hi hf)
        refine ⟨num, gh, hd, hg, hs, ?_⟩
        rw [hcom]
        exact add_comments_fresh_noop env i.gid (hnorm i hi))
  obtain ⟨p2, h2⟩ := hrun2
  exact ⟨⟨⟨expIssues env env.issues 1⟩, [], c1, cc1⟩, p1, p2, hrun1, h2⟩

def opts1c : Opts := ⟨false, 0, false, false, false⟩

def i1c : GIssue :=
  { gid := 1, title := str "Ti%tle", link := googleUrl (str "p") 1,
    author := str "al", content := str "hello\n# head", date := str "D1",
    status := some (str "Fixed"), state := str "closed",
    labels := [str "Type-Defect"], owner := false }

def c1c : GComment :=
  { cid := 1, author := str "bob", date := str "D2",
    content := str "a comment", mergedInto := none }

def env1c : Env :=
  { project := str "p", opts := opts1c, rate := 100, userLogin := str "me",
    issues := [i1c], comments := fun _ => [c1c] }

/-- Witness for `migrate_twice_idempotent`: a concrete one-issue feed
with one comment, every hypothesis checked by evaluation. -/
theorem migrate_twice_idempotent_witness :
    env1c.opts.dryRun = false ∧
    env1c.opts.synchronizeIds = false ∧
    ¬ env1c.rate < GITHUB_SPARE_REQUESTS ∧
    (env1c.issues.map (fun i => i.gid)).Nodup ∧
    (∀ i ∈ env1c.issues, statusFiltered i = false →
      searchId env1c.project (mkIssueBody i) = some i.gid) ∧
    (∀ i ∈ env1c.issues, statusFiltered i = false →
      i.state = str "open" ∨ i.state = str "closed") ∧
    (∀ i ∈ env1c.issues, ∀ c ∈ env1c.comments i.gid,
      normalizeExisting (format_comment env1c.opts c) = format_comment env1c.opts c) ∧
    ∃ st1 p1 p2,
      migrate env1c ⟨[]⟩ = .ok st1 p1 ∧
      migrate env1c st1.repo =
        .ok ⟨st1.repo, get_existing_github_issues env1c st1.repo, 0, 0⟩ p2 := by
  refine ⟨rfl, rfl, by decide, by decide, by decide, by decide, by decide, ?_⟩
  exact migrate_twice_idempotent env1c rfl rfl (by decide) (by decide) (by decide)
    (by decide) (by decide)

/-! ## C4: the quota guard -/

def i4cex : GIssue :=
  { gid := 2, title := str "T", link := googleUrl (str "p") 2,
    author := str "al", content := str "body", date := str "D1",
    status := some (str "Fixed"), state := str "open",
    labels := [], owner := false }

def env4 : Env :=
  { project := str "p", opts := ⟨false, 0, false, false, true⟩, rate := 0,
    userLogin := str "me", issues := [i4cex], comments := fun _ => [] }

/-- Refuting the mid-issue part of the quota claim: with synchronize-ids
on, quota exhausted (`rate = 0 < 50`) and a source feed starting at id 2,
the run does abort — but only after the placeholder block has already
created and closed a placeholder destination issue, because that block
performs no quota check.  The destination is mutated by a run that the
guard then kills, so placeholder issues are *not* protected by the
once-per-issue check. -/
theorem c4_counterexample :
    env4.rate < GITHUB_SPARE_REQUESTS ∧
    migrate env4 ⟨[]⟩ = .abort ⟨⟨[mkPlaceholder env4 1 1]⟩, [(1, 1)], 1, 0⟩ ∧
    (⟨[mkPlaceholder env4 1 1]⟩ : Repo) ≠ (⟨[]⟩ : Repo) := by decide

/-- C4 (amended): `add_issue_to_github` raises the quota abort whenever
the remaining quota is below the fixed margin of `GITHUB_SPARE_REQUESTS =
50`, before creating anything; and — synchronize-ids placeholders aside —
the guard does protect whole runs: without synchronize-ids, a run whose
first source issue needs creation under exhausted quota aborts with the
destination completely untouched.  (With synchronize-ids the protection
fails: see the unguarded placeholder mutation refuting the original
wording.) -/
theorem quota_guard_aborts (env : Env) (i : GIssue) (rest : List GIssue)
    (hissues : env.issues = i :: rest)
    (hrate : env.rate < GITHUB_SPARE_REQUESTS)
    (hsync : env.opts.synchronizeIds = false)
    (hfil : statusFiltered i = false) :
    add_issue_to_github env i ⟨[]⟩ = .quotaAbort ∧
    migrate env ⟨[]⟩ = .abort ⟨⟨[]⟩, [], 0, 0⟩ := by
  constructor
  · unfold add_issue_to_github
    rw [if_pos hrate]
  · unfold migrate process_gcode_issues
    rw [show get_existing_github_issues env ⟨[]⟩ = [] from rfl]
    rw [processPages_eq_list env (env.issues.length + 1) 1 _ 0 le_rfl
      (by rw [show GOOGLE_MAX_RESULTS = 500 from rfl]; omega)]
    rw [show env.issues.drop (1 - 1) = env.issues from by simp, hissues]
    show (match processIssue env i ⟨⟨[]⟩, [], 0, 0⟩ 0 with
      | .ok st' p' => processIssueList env rest st' p'
      | .abort st' => .abort st') = _
    rw [processIssue_nosync env i _ 0 hsync,
      processIssueCore_quota env i ⟨⟨[]⟩, [], 0, 0⟩ rfl hfil hrate]

def env4b : Env :=
  { project := str "p", opts := ⟨false, 0, false, false, false⟩, rate := 49,
    userLogin := str "me", issues := [i4cex], comments := fun _ => [] }

/-- Witness for `quota_guard_aborts`: quota 49, one request short of the
margin, one unfiltered source issue. -/
theorem quota_guard_aborts_witness :
    env4b.issues = i4cex :: [] ∧
    env4b.rate < GITHUB_SPARE_REQUESTS ∧
    env4b.opts.synchronizeIds = false ∧
    statusFiltered i4cex = false ∧
    (add_issue_to_github env4b i4cex ⟨[]⟩ = .quotaAbort ∧
      migrate env4b ⟨[]⟩ = .abort ⟨⟨[]⟩, [], 0, 0⟩) := by
  refine ⟨rfl, by decide, rfl, by decide, ?_⟩
  exact quota_guard_aborts env4b i4cex [] rfl (by decide) rfl (by decide)

/-! ## C8: synchronize-ids placeholders -/

/-- C8: under synchronize-ids, the gap between consecutive source ids is
filled with closed placeholder destination issues carrying the
back-reference footer for the missing id, and an id already present in
the reconciliation index is skipped.  For source ids `{1, 3}` against an
empty destination the run produces exactly three destination issues: the
migrated issue 1, then a closed placeholder for the missing id 2 whose
body the id-extraction pattern resolves to `2`, then the migrated issue
3 at number 3; the final conjunct is the skip rule: when the next missing
id is already indexed, the loop advances without touching the state.
(`hkey` pins the footer-extraction fact for the concrete placeholder
body, checked by evaluation at any concrete project name.) -/
theorem sync_ids_placeholders (env : Env) (j1 j3 : GIssue)
    (hissues : env.issues = [j1, j3])
    (hg1 : j1.gid = 1) (hg3 : j3.gid = 3)
    (hf1 : statusFiltered j1 = false) (hf3 : statusFiltered j3 = false)
    (hsync : env.opts.synchronizeIds = true)
    (hdry : env.opts.dryRun = false)
    (hrate : ¬ env.rate < GITHUB_SPARE_REQUESTS)
    (hkey : searchId env.project (placeholderBody env 2) = some 2) :
    (∃ cc p,
      migrate env ⟨[]⟩ =
        .ok ⟨⟨[expIssue env j1 1, mkPlaceholder env 2 2, expIssue env j3 3]⟩,
          [(2, 2)], 3, cc⟩ p) ∧
    (mkPlaceholder env 2 2).state = str "closed" ∧
    searchId env.project (mkPlaceholder env 2 2).body = some 2 ∧
    (∀ (st : St) (v fuel prev gid : Nat), prev + 1 < gid →
      dictGet st.emap (prev + 1) = some v →
      placeholderLoop env gid (fuel + 1) prev st =
        placeholderLoop env gid fuel (prev + 1) st) := by
  refine ⟨⟨0 + (freshComments env 1).length + (freshComments env 3).length,
    3, ?run⟩, rfl, hkey, ?skip⟩
  case skip =>
    intro st v fuel prev gid h hmap
    show (if prev + 1 < gid then
        placeholderLoop env gid fuel (prev + 1)
          (if (dictGet st.emap (prev + 1)).isNone then
            placeholderCreate env (prev + 1) st
           else st)
      else (st, prev)) = _
    rw [if_pos h, hmap]
    rfl
  case run =>
    have h1 : processIssue env j1 ⟨⟨[]⟩, [], 0, 0⟩ 0 =
        .ok ⟨⟨[expIssue env j1 1]⟩, [], 1, 0 + (freshComments env 1).length⟩
          1 := by
      unfold processIssue
      rw [hsync, if_pos rfl, hg1]
      rw [placeholderLoop_nogap env 1 1 0 _ (by omega)]
      show processIssueCore env j1 ⟨⟨[]⟩, [], 0, 0⟩ = _
      rw [processIssueCore_create env j1 ⟨⟨[]⟩, [], 0, 0⟩ rfl hf1 hrate hdry rfl]
      rw [hg1]
      rfl
    have e3 : (3 : Nat) = 2 + 1 := rfl
    have hstep := placeholderLoop_step env 3 2 1
      (⟨⟨[expIssue env j1 1]⟩, [], 1, 0 + (freshComments env 1).length⟩ : St)
      (by omega) rfl rfl
    rw [← e3] at hstep
    rw [placeholderLoop_nogap env 3 2 (1 + 1) _ (by omega)] at hstep
    have h3 : processIssue env j3
        ⟨⟨[expIssue env j1 1]⟩, [], 1, 0 + (freshComments env 1).length⟩ 1 =
        .ok ⟨⟨[expIssue env j1 1, mkPlaceholder env 2 2, expIssue env j3 3]⟩,
          [(2, 2)], 3,
          0 + (freshComments env 1).length + (freshComments env 3).length⟩ 3 := by
      unfold processIssue
      rw [hsync, if_pos rfl, hg3]
      rw [hstep]
      show processIssueCore env j3
        (⟨⟨[expIssue env j1 1, mkPlaceholder env 2 2]⟩, [(2, 2)], 2,
          0 + (freshComments env 1).length⟩ : St) = _
      rw [processIssueCore_create env j3
        ⟨⟨[expIssue env j1 1, mkPlaceholder env 2 2]⟩, [(2, 2)], 2,
          0 + (freshComments env 1).length⟩
        (by rw [hg3]; rfl) hf3 hrate hdry rfl]
      rw [hg3]
      rfl
    unfold migrate process_gcode_issues
    rw [show get_existing_github_issues env ⟨[]⟩ = [] from rfl]
    rw [processPages_eq_list env (env.issues.length + 1) 1 _ 0 le_rfl
      (by rw [show GOOGLE_MAX_RESULTS = 500 from rfl]; omega)]
    rw [show env.issues.drop (1 - 1) = env.issues from by simp, hissues]
    show (match processIssue env j1 ⟨⟨[]⟩, [], 0, 0⟩ 0 with
      | .ok st' p' => processIssueList env [j3] st' p'
      | .abort st' => .abort st') = _
    rw [h1]
    show (match processIssue env j3
        ⟨⟨[expIssue env j1 1]⟩, [], 1, 0 + (freshComments env 1).length⟩ 1 with
      | .ok st' p' => processIssueList env ([] : List GIssue) st' p'
      | .abort st' => .abort st') = _
    rw [h3]
    rfl

def i8a : GIssue :=
  { gid := 1, title := str "A", link := googleUrl (str "p") 1,
    author := str "al", content := str "first", date := str "D1",
    status := some (str "Fixed"), state := str "closed",
    labels := [], owner := false }

def i8b : GIssue :=
  { gid := 3, title := str "B", link := googleUrl (str "p") 3,
    author := str "al", content := str "third", date := str "D3",
    status := some (str "Accepted"), state := str "open",
    labels := [], owner := false }

def env8 : Env :=
  { project := str "p", opts := ⟨false, 0, false, false, true⟩, rate := 100,
    userLogin := str "me", issues := [i8a, i8b], comments := fun _ => [] }

/-- Witness for `sync_ids_placeholders`: source ids `{1, 3}` with
synchronize-ids on, every hypothesis checked by evaluation. -/
theorem sync_ids_placeholders_witness :
    env8.issues = [i8a, i8b] ∧
    i8a.gid = 1 ∧ i8b.gid = 3 ∧
    statusFiltered i8a = false ∧ statusFiltered i8b = false ∧
    env8.opts.synchronizeIds = true ∧
    env8.opts.dryRun = false ∧
    ¬ env8.rate < GITHUB_SPARE_REQUESTS ∧
    searchId env8.project (placeholderBody env8 2) = some 2 ∧
    ((∃ cc p,
      migrate env8 ⟨[]⟩ =
        .ok ⟨⟨[expIssue env8 i8a 1, mkPlaceholder env8 2 2, expIssue env8 i8b 3]⟩,
          [(2, 2)], 3, cc⟩ p) ∧
    (mkPlaceholder env8 2 2).state = str "closed" ∧
    searchId env8.project (mkPlaceholder env8 2 2).body = some 2 ∧
    (∀ (st : St) (v fuel prev gid : Nat), prev + 1 < gid →
      dictGet st.emap (prev + 1) = some v →
      placeholderLoop env8 gid (fuel + 1) prev st =
        placeholderLoop env8 gid fuel (prev + 1) st)) := by
  refine ⟨rfl, rfl, rfl, by decide, by decide, rfl, rfl, by decide, by decide, ?_⟩
  exact sync_ids_placeholders env8 i8a i8b rfl rfl rfl (by decide) (by decide)
    rfl rfl (by decide) (by decide)

end Migrate
